import Mathlib

/-!
Shallow embedding of the flashcard/quiz application (src/config.py, src/main.py,
src/flashcards_qiuzgame.py, src/gui.py) and proofs about its specified behaviour.

Conventions used throughout:
* Python strings are Lean `String`s (lists of unicode code points, as in CPython).
* Python's `str.lower` / `str.upper` / `str.strip` are modelled character-wise for the
  character repertoire this application actually manipulates (ASCII plus the Vietnamese
  alphabet appearing in `config.py`); on that repertoire the model agrees with CPython.
* Randomness (`random.sample`, `random.shuffle`, `list(set(...))` iteration order) is
  modelled by explicit oracle parameters constrained by hypotheses (`SampleOk`,
  `List.Perm`): every property proved holds for every possible random outcome, and
  counterexamples instantiate the oracle with one concrete legal outcome.
* The Python `csv` standard-library module (writer/DictReader) is not part of this
  repository; a bank file is therefore modelled at the row level, as the list of rows
  (each a list of field strings) that `csv.writer` receives and `csv.reader` hands back.
  All repository-authored logic (header handling, field selection, sorting, stripping,
  id defaulting, `None` field values for short rows) is embedded faithfully.
-/

/-! ## Python character and string primitives -/

/-- Uppercase/lowercase pairs of the Vietnamese alphabet (with diacritics), used to model
Python's unicode-aware `str.lower`/`str.upper` on the repertoire of this application. -/
def viCasePairs : List (Char × Char) :=
  [('À', 'à'), ('Á', 'á'), ('Ả', 'ả'), ('Ã', 'ã'), ('Ạ', 'ạ'),
   ('Ă', 'ă'), ('Ằ', 'ằ'), ('Ắ', 'ắ'), ('Ẳ', 'ẳ'), ('Ẵ', 'ẵ'), ('Ặ', 'ặ'),
   ('Â', 'â'), ('Ầ', 'ầ'), ('Ấ', 'ấ'), ('Ẩ', 'ẩ'), ('Ẫ', 'ẫ'), ('Ậ', 'ậ'),
   ('Đ', 'đ'),
   ('È', 'è'), ('É', 'é'), ('Ẻ', 'ẻ'), ('Ẽ', 'ẽ'), ('Ẹ', 'ẹ'),
   ('Ê', 'ê'), ('Ề', 'ề'), ('Ế', 'ế'), ('Ể', 'ể'), ('Ễ', 'ễ'), ('Ệ', 'ệ'),
   ('Ì', 'ì'), ('Í', 'í'), ('Ỉ', 'ỉ'), ('Ĩ', 'ĩ'), ('Ị', 'ị'),
   ('Ò', 'ò'), ('Ó', 'ó'), ('Ỏ', 'ỏ'), ('Õ', 'õ'), ('Ọ', 'ọ'),
   ('Ô', 'ô'), ('Ồ', 'ồ'), ('Ố', 'ố'), ('Ổ', 'ổ'), ('Ỗ', 'ỗ'), ('Ộ', 'ộ'),
   ('Ơ', 'ơ'), ('Ờ', 'ờ'), ('Ớ', 'ớ'), ('Ở', 'ở'), ('Ỡ', 'ỡ'), ('Ợ', 'ợ'),
   ('Ù', 'ù'), ('Ú', 'ú'), ('Ủ', 'ủ'), ('Ũ', 'ũ'), ('Ụ', 'ụ'),
   ('Ư', 'ư'), ('Ừ', 'ừ'), ('Ứ', 'ứ'), ('Ử', 'ử'), ('Ữ', 'ữ'), ('Ự', 'ự'),
   ('Ỳ', 'ỳ'), ('Ý', 'ý'), ('Ỷ', 'ỷ'), ('Ỹ', 'ỹ'), ('Ỵ', 'ỵ')]

/-- Model of Python's `str.lower`, one character (ASCII + Vietnamese repertoire). -/
def pyLowerChar (c : Char) : Char :=
  if 'A' ≤ c ∧ c ≤ 'Z' then Char.ofNat (c.toNat + 32)
  else
    match viCasePairs.find? (fun p => p.1 == c) with
    | some p => p.2
    | none => c

/-- Model of Python's `str.upper`, one character (ASCII + Vietnamese repertoire). -/
def pyUpperChar (c : Char) : Char :=
  if 'a' ≤ c ∧ c ≤ 'z' then Char.ofNat (c.toNat - 32)
  else
    match viCasePairs.find? (fun p => p.2 == c) with
    | some p => p.1
    | none => c

/-- Model of Python's `str.lower` (character-wise on this app's repertoire). -/
def pyLower (s : String) : String := String.mk (s.data.map pyLowerChar)

/-- Model of Python's `str.upper` (character-wise on this app's repertoire). -/
def pyUpper (s : String) : String := String.mk (s.data.map pyUpperChar)

/-- Characters Python's `str.strip()` removes (`str.isspace` characters; ASCII core plus
the unicode whitespace code points). -/
def isPyWs (c : Char) : Bool :=
  c == ' ' || c == '\t' || c == '\n' || c == '\r' || c == '\x0b' || c == '\x0c' ||
  ('\x1c' ≤ c && c ≤ '\x1f') || c == '\x85' || c == '\xa0' ||
  c == '\u1680' || ('\u2000' ≤ c && c ≤ '\u200a') ||
  c == '\u2028' || c == '\u2029' || c == '\u202f' || c == '\u205f' || c == '\u3000'

/-- Model of Python's `str.strip()` (no arguments): drop whitespace at both ends. -/
def pyStrip (s : String) : String :=
  String.mk (((s.data.dropWhile isPyWs).reverse.dropWhile isPyWs).reverse)

/-- Model of Python's `str.rstrip('.')`: drop every trailing full stop. -/
def rstripDots (s : String) : String :=
  String.mk ((s.data.reverse.dropWhile (fun c => c == '.')).reverse)

/-- Whether `needle` is a prefix of `hay` (character lists). -/
def listStartsWith : List Char → List Char → Bool
  | [], _ => true
  | _ :: _, [] => false
  | a :: as, b :: bs => a == b && listStartsWith as bs

/-- Whether `needle` occurs as a contiguous run inside `hay`. -/
def hasSubL (needle : List Char) : List Char → Bool
  | [] => listStartsWith needle []
  | b :: bs => listStartsWith needle (b :: bs) || hasSubL needle bs

/-- Model of Python's substring test `needle in hay`. -/
def strContains (hay needle : String) : Bool := hasSubL needle.data hay.data

/-- Model of Python's `s.replace(needle, repl)` (all occurrences, scanning left to
right).  The fuel argument is the length of the remaining text: every step consumes at
least one character, so `text.length` fuel always suffices and the function never hits
the fuel floor on its intended calls (all call sites pass a non-empty needle). -/
def replaceAllF (needle repl : List Char) : ℕ → List Char → List Char
  | _, [] => []
  | 0, l => l
  | fuel + 1, c :: rest =>
    if needle ≠ [] && listStartsWith needle (c :: rest) then
      repl ++ replaceAllF needle repl fuel (List.drop needle.length (c :: rest))
    else
      c :: replaceAllF needle repl fuel rest

/-- Model of Python's `s.replace(needle, repl)` on `String` (non-empty needle; every
call in the embedded sources uses a non-empty needle). -/
def pyReplaceAll (s needle repl : String) : String :=
  if needle = "" then s
  else String.mk (replaceAllF needle.data repl.data s.data.length s.data)

/-! ## Order-preserving deduplication and stable sorting

`dict.fromkeys(xs)` and `set` membership keep the first occurrence of each element;
Python's `sorted` is a stable sort.  Both are modelled structurally so that they
evaluate inside `decide`. -/

/-- First-occurrence deduplication, generalised over the set of already-seen elements
(models `dict.fromkeys` and the canonical element list of a Python `set`). -/
def dedupFirstAux [DecidableEq α] (seen : List α) : List α → List α
  | [] => []
  | a :: l => if a ∈ seen then dedupFirstAux seen l else a :: dedupFirstAux (a :: seen) l

/-- First-occurrence deduplication of a list. -/
def dedupFirst [DecidableEq α] (l : List α) : List α := dedupFirstAux [] l

/-- Stable insertion used by `stableSort`: `x` is placed before the first element that
is not strictly below it, so elements with equal keys keep their input order. -/
def sInsert (lt : α → α → Bool) (x : α) : List α → List α
  | [] => [x]
  | y :: ys => if lt y x then y :: sInsert lt x ys else x :: y :: ys

/-- Stable ascending sort (models Python's stable `sorted(..., key=...)`, with
`lt a b` standing for `key(a) < key(b)`). -/
def stableSort (lt : α → α → Bool) : List α → List α
  | [] => []
  | x :: xs => sInsert lt x (stableSort lt xs)

/-! ## Regex-based cleaners from `flashcards_qiuzgame.py`

`FlashCard._check_answer._super_clean` removes ANSI escape sequences with the regex
`ESC ( Fe-byte | CSI params inters final )` and colour tokens with `\{[A-Z0-9_]+\}`;
`FlashCard._replace_colors` substitutes `\{[A-Z0-9_]+\}` matches through the colour
map.  They are modelled as left-to-right scanners with the exact `re.sub` semantics
(non-overlapping matches, failed match position advances by one).  The fuel argument
is the length of the remaining text; every step consumes at least one character. -/

/-- Final byte of a two-character ANSI escape: the class `[@-Z\\-_]` of the source
regex, i.e. `@`..`Z` or `\`..`_`. -/
def ansiFe (c : Char) : Bool := ('@' ≤ c && c ≤ 'Z') || ('\\' ≤ c && c ≤ '_')

/-- CSI parameter byte: the class `[0-?]`. -/
def ansiParam (c : Char) : Bool := '0' ≤ c && c ≤ '?'

/-- CSI intermediate byte: the class from space to solidus. -/
def ansiInter (c : Char) : Bool := ' ' ≤ c && c ≤ '/'

/-- CSI final byte: the class `[@-~]`. -/
def ansiFinal (c : Char) : Bool := '@' ≤ c && c ≤ '~'

/-- After the CSI opener, try to consume parameter bytes, then intermediate bytes,
then one final byte; return the rest on success. -/
def csiTail (l : List Char) : Option (List Char) :=
  match (l.dropWhile ansiParam).dropWhile ansiInter with
  | c :: rest => if ansiFinal c then some rest else none
  | [] => none

/-- Scanner for `ansi_re.sub('', text)` of `_super_clean`. -/
def stripAnsiF : ℕ → List Char → List Char
  | _, [] => []
  | 0, l => l
  | fuel + 1, c :: rest =>
    if c == '\x1b' then
      match rest with
      | '[' :: rest2 =>
        match csiTail rest2 with
        | some rest3 => stripAnsiF fuel rest3
        | none => c :: stripAnsiF fuel rest
      | d :: rest2 => if ansiFe d then stripAnsiF fuel rest2 else c :: stripAnsiF fuel rest
      | [] => [c]
    else c :: stripAnsiF fuel rest

/-- Characters allowed inside a `\x7bTOKEN\x7d` colour token: the class `[A-Z0-9_]`. -/
def tokenChar (c : Char) : Bool := ('A' ≤ c && c ≤ 'Z') || ('0' ≤ c && c ≤ '9') || c == '_'

/-- After an opening brace, try to match `[A-Z0-9_]+` followed by a closing brace;
return the token run and the rest on success. -/
def tokenSplit (l : List Char) : Option (List Char × List Char) :=
  let run := l.takeWhile tokenChar
  if run.isEmpty then none
  else
    match l.dropWhile tokenChar with
    | c :: r => if c == '\x7d' then some (run, r) else none
    | [] => none

/-- Scanner for `re.sub(r'\{[A-Z0-9_]+\}', '', text)` of `_super_clean`. -/
def stripTokensF : ℕ → List Char → List Char
  | _, [] => []
  | 0, l => l
  | fuel + 1, c :: rest =>
    if c == '\x7b' then
      match tokenSplit rest with
      | some (_, r) => stripTokensF fuel r
      | none => c :: stripTokensF fuel rest
    else c :: stripTokensF fuel rest

/-- The colour map `FlashCard._build_color_map` derives from `config.py`: every
uppercase string variable whose value starts with an escape character, keyed as
`"\x7bNAME\x7d"`. -/
def colorPairs : List (String × String) :=
  [("\x7bRESET\x7d", "\x1b[0m"),
   ("\x7bBLACK\x7d", "\x1b[30m"), ("\x7bRED\x7d", "\x1b[31m"),
   ("\x7bGREEN\x7d", "\x1b[32m"), ("\x7bYELLOW\x7d", "\x1b[33m"),
   ("\x7bBLUE\x7d", "\x1b[34m"), ("\x7bMAGENTA\x7d", "\x1b[35m"),
   ("\x7bCYAN\x7d", "\x1b[36m"), ("\x7bWHITE\x7d", "\x1b[37m"),
   ("\x7bBRIGHT_BLACK\x7d", "\x1b[90m"), ("\x7bBRIGHT_RED\x7d", "\x1b[91m"),
   ("\x7bBRIGHT_GREEN\x7d", "\x1b[92m"), ("\x7bBRIGHT_YELLOW\x7d", "\x1b[93m"),
   ("\x7bBRIGHT_BLUE\x7d", "\x1b[94m"), ("\x7bBRIGHT_MAGENTA\x7d", "\x1b[95m"),
   ("\x7bBRIGHT_CYAN\x7d", "\x1b[96m"), ("\x7bBRIGHT_WHITE\x7d", "\x1b[97m"),
   ("\x7bBG_RED\x7d", "\x1b[41m"), ("\x7bBG_GREEN\x7d", "\x1b[42m"),
   ("\x7bBG_YELLOW\x7d", "\x1b[43m"), ("\x7bBG_BLUE\x7d", "\x1b[44m"),
   ("\x7bBG_MAGENTA\x7d", "\x1b[45m"), ("\x7bBG_CYAN\x7d", "\x1b[46m"),
   ("\x7bBG_WHITE\x7d", "\x1b[47m")]

/-- Lookup in the colour map (`self.color_map.get(tok, tok)` keeps unknown tokens). -/
def colorMapGet (tok : String) : String :=
  match colorPairs.find? (fun p => p.1 == tok) with
  | some p => p.2
  | none => tok

/-- Scanner for `self._color_token_re.sub(lambda m: self.color_map.get(m.group(0),
m.group(0)), text)` of `_replace_colors`. -/
def colorTokenSubF : ℕ → List Char → List Char
  | _, [] => []
  | 0, l => l
  | fuel + 1, c :: rest =>
    if c == '\x7b' then
      match tokenSplit rest with
      | some (run, r) =>
        (colorMapGet (String.mk ('\x7b' :: (run ++ ['\x7d'])))).data ++ colorTokenSubF fuel r
      | none => c :: colorTokenSubF fuel rest
    else c :: colorTokenSubF fuel rest

/-! ## Configuration (`src/config.py`) -/

/-- The grouping keyword list `KEYWORD` of `config.py`, in source order. -/
def KEYWORD : List String :=
  ["cho ai", "là ai", "ai là",
   "mục tiêu chính",
   "ở đâu", "đến đâu",
   "bằng gì", "điều gì", "làm gì", "nhiệm vụ gì", "là gì", "tác dụng gì", "bao gồm gì",
   "trách nhiệm gì", "kết nối gì", "chức năng gì", "vai trò gì", "mục đích gì",
   "việc gì", "đặc điểm gì?", "gọi là gì",
   "nguyên nhân nào", "thiết bị nào", "tầng nào", "giao thức nào", "yếu tố nào",
   "cổng nào", "thiết bị nào", "thông tin nào", "như thế nào", "phạm vi nào",
   "bằng cách nào", "hướng nào", "lớp nào", "dấu hiệu nào", "công nghệ nền nào",
   "hiện tượng nào", "cáp nào", "điểm nào", "hoạt động nào", "tấn công nào",
   "giai đoạn nào", "công cụ nào", "kỹ thuật nào", "bảng nào", "vai trò nào",
   "thành phần nào", "quy tắc nào", "tư duy nào",
   "mặc định", "thiết bị", "tại sao", "mấy lớp", "mấy tầng", "bao nhiêu"]

/-- The boolean-question keyword list `KEYWORD_BOOL` of `config.py`. -/
def KEYWORD_BOOL : List String := ["đúng hay sai", "dung"]

/-- The affirmative boolean token. -/
def dungTok : String := "Đúng"

/-- The negative boolean token. -/
def saiTok : String := "Sai"

/-! ## Records -/

/-- A record of `main.py`: the 5-tuple `(id, answer, question, desc, ref)`. -/
structure MRec where
  rid : String
  ans : String
  ques : String
  desc : String
  ref : String
deriving DecidableEq

/-- A record of `flashcards_qiuzgame.py`: the 6-tuple
`(id, answer, question, hint, desc, source)` produced by `_load_flashcard`. -/
structure FRec where
  rid : String
  ans : String
  ques : String
  hint : String
  desc : String
  src : String
deriving DecidableEq

/-- A record of `gui.py`: the 3-tuple `(qid, answer, question)`. -/
structure GRec where
  gid : String
  ans : String
  ques : String
deriving DecidableEq

/-- A member of the heterogeneous candidate pool of `FlashCard._get_options`: Python
mixes answer strings and whole record tuples in one `set` (the top-up
`random.sample(all_ans, ...)` adds records, because `_quiz` passes `all_ans = data[:]`). -/
inductive OptV where
  | str (s : String)
  | row (r : FRec)
deriving DecidableEq

/-! ## Display rendering (`FlashCard._replace_colors`, `QuizGame._normalize`) -/

/-- The normalisation pipeline of `_replace_colors` applied to string content:
`\\n`/`\\t` unescaping, `.\n` collapse, `\x7bBACKSLASH\x7d` substitution, then the
colour-token substitution. -/
def replaceColorsCore (text : String) : String :=
  let t1 := pyReplaceAll text "\\n" "\n"
  let t2 := pyReplaceAll t1 "\\t" "\t"
  let t3 := pyReplaceAll t2 ".\n" "\n"
  let t4 := pyReplaceAll t3 "\x7bBACKSLASH\x7d" "\\"
  String.mk (colorTokenSubF t4.data.length t4.data)

/-- `FlashCard._replace_colors` on a string argument (`if not text: return ""`). -/
def replaceColorsStr (text : String) : String :=
  if text = "" then "" else replaceColorsCore text

/-- `FlashCard._replace_colors` on a pool member: a tuple argument is collapsed to
`str(text[1])`, its answer field, before the normalisation pipeline. -/
def replaceColorsOpt : OptV → String
  | .str s => replaceColorsStr s
  | .row r => replaceColorsCore r.ans

/-- `QuizGame._normalize` of `main.py`: `text.replace("\\n", "\n").replace("\\t", "\t")
if text else text`. -/
def mainNormalize (text : String) : String :=
  if text = "" then text else pyReplaceAll (pyReplaceAll text "\\n" "\n") "\\t" "\t"

/-! ## Distractor selection

`random.sample(pool, k)` returns `k` distinct positions of `pool` in some order; it is
modelled by an oracle function constrained by `SampleOk`: the output is a sub-permutation
of the pool and has length `min k (length pool)`. -/

/-- Specification of a legal `random.sample` oracle. -/
def SampleOk [DecidableEq α] (sample : List α → ℕ → List α) : Prop :=
  ∀ l k, List.Subperm (sample l k) l ∧ (sample l k).length = min k l.length

/-- The candidate pool built inside `QuizGame._options` (`main.py`):
`list(set(pool) - {correct, "Đúng", "Sai"})`. -/
def mainOptionsPool (correct : String) (pool : List String) : List String :=
  (dedupFirst pool).filter (fun x => !(x == correct) && !(x == dungTok) && !(x == saiTok))

/-- `QuizGame._options` (`main.py`):
`random.sample(pool, min(n - 1, len(pool))) + [correct]`. -/
def mainOptions (sample : List String → ℕ → List String) (correct : String)
    (pool : List String) (n : ℕ) : List String :=
  sample (mainOptionsPool correct pool) (min (n - 1) (mainOptionsPool correct pool).length)
    ++ [correct]

/-- The candidate pool built inside `FlashCard._options`: `pool_set = set(pool)` with
`correct`, `"Đúng"` and `"Sai"` discarded (only the *string* forms are discarded —
record tuples in the pool are unaffected). -/
def flashOptionsPool (correct : String) (pool : List OptV) : List OptV :=
  (dedupFirst pool).filter
    (fun x => !(x == OptV.str correct) && !(x == OptV.str dungTok) && !(x == OptV.str saiTok))

/-- `FlashCard._options`:
`random.sample(pool, min(len(pool), max(0, n - 1)))` with `correct` appended. -/
def flashOptions (sample : List OptV → ℕ → List OptV) (correct : String)
    (pool : List OptV) (n : ℕ) : List OptV :=
  sample (flashOptionsPool correct pool) (min (flashOptionsPool correct pool).length (n - 1))
    ++ [OptV.str correct]

/-- Whether the question matches a boolean keyword
(`any(kw in ql for kw in _CONFIG.KEYWORD_BOOL)` with `ql = q.lower()`). -/
def hasBoolKw (q : String) : Bool :=
  KEYWORD_BOOL.any (fun kw => strContains (pyLower q) kw)

/-- The first grouping keyword matching the question
(`for kw in _CONFIG.KEYWORD: if kw in ql: ...` takes the first hit). -/
def firstKw (q : String) : Option String :=
  KEYWORD.find? (fun kw => strContains (pyLower q) kw)

/-- The group of `FlashCard._get_options` before any top-up: the set
`{a} ∪ {row[1] | row in data, row[0] != qid, kw in row[2].lower()}`. -/
def flashGroup (qid a kw : String) (data : List FRec) : List OptV :=
  dedupFirst (OptV.str a ::
    (data.filter (fun row => !(row.rid == qid) && strContains (pyLower row.ques) kw)).map
      (fun row => OptV.str row.ans))

/-- The distinct answers of *other* records matching the keyword (the restricted
distractor candidate pool, as the specification describes it). -/
def restrictedAnswers (qid kw : String) (data : List FRec) : List String :=
  dedupFirst
    ((data.filter (fun row => !(row.rid == qid) && strContains (pyLower row.ques) kw)).map
      (fun row => row.ans))

/-- The top-up branch condition of `FlashCard._get_options`:
`len(group) < (n_opts or 4)` (Python `or` treats `0`/`None` as falsy). -/
def flashTopUpTriggered (qid a kw : String) (data : List FRec) (n : ℕ) : Bool :=
  (flashGroup qid a kw data).length < (if n = 0 then 4 else n)

/-- `FlashCard._get_options`.  `sampleTop` models the top-up
`random.sample(all_ans, min(len(all_ans), 10))` and `sampleOpt` the sample inside
`_options`; both are constrained by `SampleOk` in the theorems. -/
def flashGetOptions (sampleTop sampleOpt : List OptV → ℕ → List OptV)
    (qid q a : String) (data : List FRec) (allAns : List OptV) (n : ℕ) : List String :=
  if hasBoolKw q then [dungTok, saiTok]
  else
    match firstKw q with
    | some kw =>
      let group := flashGroup qid a kw data
      let group2 :=
        if group.length < (if n = 0 then 4 else n) then
          dedupFirst (group ++ sampleTop allAns (min allAns.length 10))
        else group
      (dedupFirst (flashOptions sampleOpt a group2 n)).map replaceColorsOpt
    | none =>
      (dedupFirst (flashOptions sampleOpt a allAns n)).map replaceColorsOpt

/-! ## Answer checking and scoring -/

/-- The `_super_clean` helper of `FlashCard._check_answer`: remove ANSI escapes,
remove colour tokens, strip surrounding whitespace, lowercase, and remove trailing
full stops. -/
def superClean (text : String) : String :=
  if text = "" then ""
  else
    let t1 := stripAnsiF text.data.length text.data
    let t2 := stripTokensF t1.length t1
    rstripDots (pyLower (pyStrip (String.mk t2)))

/-- The comparison the specification describes for `Scored(i)`, following its words:
"compare the chosen option's text against the record's canonical answer,
case-insensitively, after stripping any display-only formatting tokens and
whitespace".  Defined only to be compared against the code's `superClean`. -/
def claimNormalize (text : String) : String :=
  pyLower (pyStrip (String.mk (stripTokensF text.data.length text.data)))

/-- `FlashCard._check_answer`: locate the record by id, then compare the super-cleaned
chosen text with the super-cleaned stored answer. -/
def flashCheckAnswer (chosen qid : String) (data : List FRec) : Bool :=
  match data.find? (fun row => row.rid == qid) with
  | none => false
  | some target => superClean chosen == superClean target.ans

/-- The scoring comparison of `QuizGame._quiz` (`main.py`): collect the answers of all
records whose stripped lowercased question equals the current question's, and test
membership of the lowercased chosen text. -/
def mainCheckAnswer (chosen q : String) (data : List MRec) : Bool :=
  (data.filter (fun row => pyLower (pyStrip row.ques) == pyLower (pyStrip q))).any
    (fun row => pyLower row.ans == pyLower chosen)

/-! ## Bank persistence

A bank file is the list of rows handed to `csv.writer` / received from `csv.reader`
(see the file header comment).  `csv.DictReader` semantics: the first row is the field
name list; a shorter data row leaves the missing fields as `None` (`restval`), which
the loader's `.strip()` calls then crash on — modelled by `Option String` cell values
and an `Except` result. -/

/-- First index of a field name in the header (Python `dict` key position for
`dict(zip(fieldnames, row))`). -/
def fieldIdx (key : String) : List String → Option ℕ
  | [] => none
  | h :: t => if h == key then some 0 else (fieldIdx key t).map (· + 1)

/-- `row.get(key, "")` on a `csv.DictReader` row dictionary: a key in the header maps
to the row cell (or `None`, i.e. `none`, when the row is short); a key not in the
header falls back to the `""` default. -/
def dGet (header row : List String) (key : String) : Option String :=
  match fieldIdx key header with
  | some i => row.get? i
  | none => some ""

/-- `value.strip()` on a dictionary value: Python raises `AttributeError` when the
value is `None`. -/
def pyStripOpt : Option String → Except Unit String
  | none => .error ()
  | some s => .ok (pyStrip s)

/-- One row of `FlashCard._load_flashcard`: build
`(id or uuid4(), answer, question, hint, desc, src)` with every field stripped; any
`None` cell aborts the whole load (the comprehension propagates the exception). -/
def flashLoadRow (fresh : String) (header row : List String) (src : String) :
    Except Unit FRec :=
  match pyStripOpt (dGet header row "id"), pyStripOpt (dGet header row "answer"),
        pyStripOpt (dGet header row "question"), pyStripOpt (dGet header row "hint"),
        pyStripOpt (dGet header row "desc") with
  | .ok i, .ok a, .ok q, .ok h, .ok d =>
    .ok ⟨if i = "" then fresh else i, a, q, h, d, src⟩
  | _, _, _, _, _ => .error ()

/-- The data rows of `FlashCard._load_flashcard` (`csv.DictReader` skips blank rows;
`fresh i` models the `str(uuid.uuid4())` generated for row `i` if needed). -/
def flashLoadRows (fresh : ℕ → String) (header : List String) (src : String) :
    ℕ → List (List String) → Except Unit (List FRec)
  | _, [] => .ok []
  | i, row :: rest =>
    if row = [] then flashLoadRows fresh header src i rest
    else
      match flashLoadRow (fresh i) header row src, flashLoadRows fresh header src (i + 1) rest with
      | .ok r, .ok rs => .ok (r :: rs)
      | _, _ => .error ()

/-- `FlashCard._load_flashcard` on a bank file (first row is the header; an empty file
yields no records). -/
def flashLoad (fresh : ℕ → String) (file : List (List String)) (src : String) :
    Except Unit (List FRec) :=
  match file with
  | [] => .ok []
  | header :: rows => flashLoadRows fresh header src 0 rows

/-- The header row written by `FlashCard._save_flashcard` and `_create_file`. -/
def headerF : List String := ["id", "answer", "question", "hint", "desc"]

/-- The persisted row of a flashcard record: `row[:5]`. -/
def flashRow (r : FRec) : List String := [r.rid, r.ans, r.ques, r.hint, r.desc]

/-- Lexicographic code-point comparison of character lists: the comparison CPython
performs for `str < str` (and inside `sorted` key comparisons). -/
def listLtB : List Char → List Char → Bool
  | [], [] => false
  | [], _ :: _ => true
  | _ :: _, [] => false
  | a :: as, b :: bs => if a < b then true else if b < a then false else listLtB as bs

/-- Python's `str < str`. -/
def strLtB (a b : String) : Bool := listLtB a.data b.data

/-- Python's tuple comparison `(a1, a2) < (b1, b2)` on string pairs. -/
def pairLtB (a b : String × String) : Bool :=
  strLtB a.1 b.1 || (a.1 == b.1 && strLtB a.2 b.2)

/-- Sort key of `FlashCard._save_flashcard`:
`(x[1].lower().strip(), x[2].lower().strip())`. -/
def flashKey (r : FRec) : String × String :=
  (pyStrip (pyLower r.ans), pyStrip (pyLower r.ques))

/-- Key comparison of `FlashCard._save_flashcard`'s `sorted` call. -/
def flashLt (a b : FRec) : Bool := pairLtB (flashKey a) (flashKey b)

/-- `FlashCard._save_flashcard`: header plus the records sorted stably by `flashKey`,
truncated to their five persisted fields. -/
def flashSave (data : List FRec) : List (List String) :=
  headerF :: (stableSort flashLt data).map flashRow

/-- Sort key of `QuizGame._save` (`main.py`): `x[1].lower()` — the answer only. -/
def mainLt (a b : MRec) : Bool := strLtB (pyLower a.ans) (pyLower b.ans)

/-- The header row written by `QuizGame._save`. -/
def headerM : List String := ["id", "answer", "question", "desc", "ref"]

/-- The persisted row of a `main.py` record. -/
def mainRow (r : MRec) : List String := [r.rid, r.ans, r.ques, r.desc, r.ref]

/-- `QuizGame._save` (`main.py`): header plus the records sorted stably by answer. -/
def mainSave (data : List MRec) : List (List String) :=
  headerM :: (stableSort mainLt data).map mainRow

/-- Sort key comparison of `QuizManager.save_questions` (`gui.py`):
`x[1].lower()` — the answer only. -/
def guiLt (a b : GRec) : Bool := strLtB (pyLower a.ans) (pyLower b.ans)

/-- `QuizManager.save_questions`: sort by answer, then write `i,answer,question` lines
with positional ids re-derived from 1. -/
def guiSaveLines (questions : List GRec) : List String :=
  (stableSort guiLt questions).mapIdx
    (fun i r => toString (i + 1) ++ "," ++ r.ans ++ "," ++ r.ques)

/-! ## Quiz session interpreters

The interactive loops of `FlashCard._quiz` and `QuizGame._quiz` are modelled as
interpreters over a finite list of user input lines.  The per-question option lists
(a shuffle of the generated options, whose content is analysed separately through
`flashGetOptions` / `mainOptions`) are supplied by an oracle `optsFor : ℕ → List String`
indexed by the 1-based question number.  Exhausting the input list while the program
still blocks on `input()` yields `none` (no export is produced). -/

/-- `string.ascii_uppercase` as single-character labels. -/
def upperLabels : List String :=
  ["A", "B", "C", "D", "E", "F", "G", "H", "I", "J", "K", "L", "M",
   "N", "O", "P", "Q", "R", "S", "T", "U", "V", "W", "X", "Y", "Z"]

/-- `string.ascii_lowercase` as single-character labels. -/
def lowerLabels : List String :=
  ["a", "b", "c", "d", "e", "f", "g", "h", "i", "j", "k", "l", "m",
   "n", "o", "p", "q", "r", "s", "t", "u", "v", "w", "x", "y", "z"]

/-- `dict(zip(keys, opts))` with `keys = labels[:len(opts)]`. -/
def labelMap (labels : List String) (opts : List String) : List (String × String) :=
  (labels.take opts.length).zip opts

/-- Dictionary lookup `mapping[k]`. -/
def lookupMap (k : String) (m : List (String × String)) : Option String :=
  (m.find? (fun p => p.1 == k)).map (fun p => p.2)

/-- One result row of `FlashCard._quiz` (`results.append({...})`). -/
structure FRow where
  index : ℕ
  question : String
  correct : String
  hint : String
  desc : String
  ok : Bool
  qid : String
deriving DecidableEq

/-- One result row of `QuizGame._quiz` (`main.py`). -/
structure MRow where
  index : ℕ
  question : String
  correct : String
  desc : String
  ref : String
  ok : Bool
deriving DecidableEq

/-- The export produced by `_export_results` / the export block of `main.py`'s `_quiz`:
the metadata values `total_questions`, `score`, `wrong`, `percent` followed by one
detail row per result. -/
structure Export (ρ : Type) where
  total : ℕ
  score : ℕ
  wrong : ℤ
  percent : ℚ
  rows : List ρ
deriving DecidableEq

/-- The statistics computation shared verbatim by `FlashCard._export_results`
(`wrong = total - score; percent = (score / total * 100) if total else 0.0`) and the
export block of `QuizGame._quiz` (`main.py`). -/
def mkExport (results : List ρ) (score total : ℕ) : Export ρ :=
  { total := total
    score := score
    wrong := (total : ℤ) - (score : ℤ)
    percent := if total = 0 then 0 else (score : ℚ) / (total : ℚ) * 100
    rows := results }

/-- Result of the inner input loop of `FlashCard._quiz`. -/
inductive FAwait where
  | stuck
  | quit (rest : List String)
  | answered (chosen : String) (rest : List String)
deriving DecidableEq

/-- The inner input loop of `FlashCard._quiz`: read a line, `strip().upper()` it;
`EXIT` finishes the session, `?` shows the hint and re-prompts, a valid label picks
its option text, anything else re-prompts. -/
def flashAwait (mapping : List (String × String)) : List String → FAwait
  | [] => .stuck
  | s :: rest =>
    let u := pyUpper (pyStrip s)
    if u == "EXIT" then .quit rest
    else if u == "?" then flashAwait mapping rest
    else
      match lookupMap u mapping with
      | some v => .answered v rest
      | none => flashAwait mapping rest

/-- The question loop of `FlashCard._quiz` over the remaining pool.  `i` is the 1-based
index of the next question, `totalQs = len(pool)`; after each question except the last
one more input line is consumed (`input("Nhấn Enter ...")`). -/
def runFlashAux (data : List FRec) (optsFor : ℕ → List String) (totalQs : ℕ) :
    List FRec → ℕ → List FRow → ℕ → List String → Option (Export FRow)
  | [], _, results, score, _ => some (mkExport results score results.length)
  | r :: rest, i, results, score, inputs =>
    let opts := optsFor i
    let mapping := labelMap upperLabels opts
    match flashAwait mapping inputs with
    | .stuck => none
    | .quit _ => some (mkExport results score results.length)
    | .answered chosen inputs' =>
      let ok := flashCheckAnswer chosen r.rid data
      let row : FRow :=
        { index := i
          question := replaceColorsStr r.ques
          correct := replaceColorsStr r.ans
          hint := if r.hint = "" then "" else replaceColorsStr r.hint
          desc := if r.desc = "" then "" else replaceColorsStr r.desc
          ok := ok
          qid := r.rid }
      let results' := results ++ [row]
      let score' := if ok then score + 1 else score
      if i < totalQs then
        match inputs' with
        | [] => none
        | _ :: inputs'' => runFlashAux data optsFor totalQs rest (i + 1) results' score' inputs''
      else runFlashAux data optsFor totalQs rest (i + 1) results' score' inputs'

/-- `FlashCard._quiz` on an already-constructed pool. -/
def runFlash (data : List FRec) (optsFor : ℕ → List String) (pool : List FRec)
    (inputs : List String) : Option (Export FRow) :=
  runFlashAux data optsFor pool.length pool 1 [] 0 inputs

/-- The inner input loop of `QuizGame._quiz` (`main.py`): read a line,
`.lower().strip()` it; only a valid option label leaves the loop — there is no exit
token and no hint request. -/
def mainAwait (mapping : List (String × String)) : List String → Option (String × List String)
  | [] => none
  | s :: rest =>
    let u := pyStrip (pyLower s)
    match lookupMap u mapping with
    | some v => some (v, rest)
    | none => mainAwait mapping rest

/-- The question loop of `QuizGame._quiz` (`main.py`). -/
def runMainAux (data : List MRec) (optsFor : ℕ → List String) :
    List MRec → ℕ → List MRow → ℕ → List String → Option (Export MRow)
  | [], _, results, score, _ => some (mkExport results score results.length)
  | r :: rest, i, results, score, inputs =>
    let opts := optsFor i
    let mapping := labelMap lowerLabels opts
    match mainAwait mapping inputs with
    | none => none
    | some (chosen, inputs') =>
      let ok := mainCheckAnswer chosen r.ques data
      let row : MRow :=
        { index := i
          question := mainNormalize r.ques
          correct := mainNormalize r.ans
          desc := mainNormalize r.desc
          ref := mainNormalize r.ref
          ok := ok }
      runMainAux data optsFor rest (i + 1) (results ++ [row])
        (if ok then score + 1 else score) inputs'

/-- `QuizGame._quiz` (`main.py`) on an already-constructed pool. -/
def runMain (data : List MRec) (optsFor : ℕ → List String) (pool : List MRec)
    (inputs : List String) : Option (Export MRow) :=
  runMainAux data optsFor pool 1 [] 0 inputs

/-! ## Quiz pool construction -/

/-- The repetition-and-truncation step of `QuizGame._quiz` (`main.py`):
`(data * (max_qs // len(data) + 1))[:max_qs]`. -/
def mainRepeat (data : List MRec) (maxQs : ℕ) : List MRec :=
  (List.flatten (List.replicate (maxQs / data.length + 1) data)).take maxQs

/-- The pool of `QuizGame._quiz` after `random.shuffle(pool); pool = pool[:max_qs]`:
`perm` is the shuffle outcome, a permutation of `mainRepeat data maxQs`. -/
def mainBuildPool (perm : List MRec) (maxQs : ℕ) : List MRec := perm.take maxQs

/-- The pool of `FlashCard._quiz`:
`data[:] if not max_qs else random.sample(data, min(max_qs, len(data)))`; the sample is
the first `min maxQs (len data)` entries of a shuffle outcome `perm` of `data`. -/
def flashBuildPool (data perm : List FRec) (maxQs : ℕ) : List FRec :=
  if maxQs = 0 then data else perm.take (min maxQs data.length)

/-- `MAX_QUESTIONS` of `gui.py`. -/
def GUI_MAX_QUESTIONS : ℕ := 20

/-- The padding loop of `QuizWindow._prepare_pool`:
`pool=[]; while len(pool) < MAX_QUESTIONS: pool += qs`.  Each iteration of the source
loop appends the whole (caller-guaranteed non-empty) record list, so at most
`MAX_QUESTIONS` iterations happen; the fuel bounds the iteration count and never runs
out on those calls. -/
def guiPadLoopF (qs : List GRec) : ℕ → List GRec → List GRec
  | 0, pool => pool
  | fuel + 1, pool =>
    if pool.length < GUI_MAX_QUESTIONS then guiPadLoopF qs fuel (pool ++ qs) else pool

/-- The padded pool of `QuizWindow._prepare_pool` for a short record list. -/
def guiPadPool (qs : List GRec) : List GRec := guiPadLoopF qs GUI_MAX_QUESTIONS []

/-- `QuizWindow._prepare_pool`: sample 20 when enough records exist, otherwise pad by
repetition, shuffle, and truncate to 20.  `permS` is the sample outcome (a shuffle of
`qs`), `permP` the shuffle outcome of the padded pool. -/
def guiPrepare (qs permS permP : List GRec) : List GRec :=
  if GUI_MAX_QUESTIONS ≤ qs.length then permS.take GUI_MAX_QUESTIONS
  else permP.take GUI_MAX_QUESTIONS

/-! ## Generic lemmas about the list utilities -/

lemma dedupFirstAux_mem [DecidableEq α] (l : List α) (x : α) :
    ∀ seen, x ∈ dedupFirstAux seen l ↔ x ∈ l ∧ x ∉ seen := by
  induction l with
  | nil => intro seen; simp [dedupFirstAux]
  | cons a l ih =>
    intro seen
    by_cases ha : a ∈ seen
    · simp only [dedupFirstAux, if_pos ha, ih, List.mem_cons]
      constructor
      · rintro ⟨h1, h2⟩; exact ⟨Or.inr h1, h2⟩
      · rintro ⟨h1 | h1, h2⟩
        · exact absurd (h1 ▸ ha) h2
        · exact ⟨h1, h2⟩
    · simp only [dedupFirstAux, if_neg ha, List.mem_cons, ih]
      constructor
      · rintro (rfl | ⟨h1, h2⟩)
        · exact ⟨Or.inl rfl, ha⟩
        · exact ⟨Or.inr h1, fun hc => h2 (Or.inr hc)⟩
      · rintro ⟨rfl | h1, h2⟩
        · exact Or.inl rfl
        · by_cases hxa : x = a
          · exact Or.inl hxa
          · exact Or.inr ⟨h1, fun hc => hc.elim hxa h2⟩

lemma dedupFirst_mem [DecidableEq α] (l : List α) (x : α) :
    x ∈ dedupFirst l ↔ x ∈ l := by
  simp [dedupFirst, dedupFirstAux_mem]

lemma dedupFirstAux_nodup [DecidableEq α] (l : List α) :
    ∀ seen, (dedupFirstAux seen l).Nodup := by
  induction l with
  | nil => intro seen; simp [dedupFirstAux]
  | cons a l ih =>
    intro seen
    by_cases ha : a ∈ seen
    · simpa [dedupFirstAux, if_pos ha] using ih seen
    · simp only [dedupFirstAux, if_neg ha, List.nodup_cons]
      refine ⟨fun hc => ?_, ih _⟩
      exact ((dedupFirstAux_mem l a _).mp hc).2 (List.mem_cons_self _ _)

lemma dedupFirst_nodup [DecidableEq α] (l : List α) : (dedupFirst l).Nodup :=
  dedupFirstAux_nodup l []

lemma dedupFirstAux_length_mono [DecidableEq α] (l : List α) :
    ∀ seen seen' : List α, (∀ x ∈ seen, x ∈ seen') →
      (dedupFirstAux seen' l).length ≤ (dedupFirstAux seen l).length := by
  induction l with
  | nil => intro seen seen' _; simp [dedupFirstAux]
  | cons a l ih =>
    intro seen seen' hss
    by_cases h' : a ∈ seen'
    · by_cases h : a ∈ seen
      · simpa [dedupFirstAux, if_pos h, if_pos h'] using ih seen seen' hss
      · simp only [dedupFirstAux, if_neg h, if_pos h', List.length_cons]
        have h1 : (dedupFirstAux seen' l).length ≤ (dedupFirstAux (a :: seen) l).length := by
          refine ih _ _ fun x hx => ?_
          rcases List.mem_cons.mp hx with rfl | hx
          · exact h'
          · exact hss _ hx
        exact le_trans h1 (Nat.le_succ _)
    · have h : a ∉ seen := fun hc => h' (hss _ hc)
      simp only [dedupFirstAux, if_neg h, if_neg h', List.length_cons]
      refine Nat.succ_le_succ (ih _ _ fun x hx => ?_)
      rcases List.mem_cons.mp hx with rfl | hx
      · exact List.mem_cons_self _ _
      · exact List.mem_cons_of_mem _ (hss _ hx)

lemma dedupFirst_cons_length [DecidableEq α] (x : α) (l : List α) :
    (dedupFirst (x :: l)).length ≤ (dedupFirst l).length + 1 := by
  have hx : (x : α) ∉ ([] : List α) := by simp
  simp only [dedupFirst, dedupFirstAux, if_neg hx, List.length_cons]
  exact Nat.succ_le_succ (dedupFirstAux_length_mono l [] [x] (by simp))

lemma dedupFirstAux_map {β : Type} [DecidableEq α] [DecidableEq β] (f : α → β)
    (hf : Function.Injective f) (l : List α) :
    ∀ seen, dedupFirstAux (seen.map f) (l.map f) = (dedupFirstAux seen l).map f := by
  induction l with
  | nil => intro seen; simp [dedupFirstAux]
  | cons a l ih =>
    intro seen
    by_cases h : a ∈ seen
    · have h2 : f a ∈ seen.map f := List.mem_map.mpr ⟨a, h, rfl⟩
      simp only [List.map_cons, dedupFirstAux, if_pos h, if_pos h2, ih]
    · have h2 : f a ∉ seen.map f := by
        intro hc
        rcases List.mem_map.mp hc with ⟨b, hb, hfb⟩
        exact h (hf hfb ▸ hb)
      simp only [List.map_cons, dedupFirstAux, if_pos, if_neg h, if_neg h2]
      have := ih (a :: seen)
      simp only [List.map_cons] at this
      simp [this]

lemma dedupFirst_map_length {β : Type} [DecidableEq α] [DecidableEq β] (f : α → β)
    (hf : Function.Injective f) (l : List α) :
    (dedupFirst (l.map f)).length = (dedupFirst l).length := by
  have := dedupFirstAux_map f hf l []
  simp only [List.map_nil] at this
  simp [dedupFirst, this]

lemma sInsert_perm (lt : α → α → Bool) (x : α) (l : List α) :
    List.Perm (sInsert lt x l) (x :: l) := by
  induction l with
  | nil => simp [sInsert]
  | cons y ys ih =>
    by_cases h : lt y x
    · simp only [sInsert, if_pos h]
      exact (ih.cons y).trans (List.Perm.swap x y ys)
    · simp [sInsert, if_neg h]

lemma stableSort_perm (lt : α → α → Bool) (l : List α) :
    List.Perm (stableSort lt l) l := by
  induction l with
  | nil => simp [stableSort]
  | cons x xs ih =>
    exact (sInsert_perm lt x (stableSort lt xs)).trans (ih.cons x)

lemma sInsert_pairwise (lt : α → α → Bool)
    (hasym : ∀ a b, lt a b = true → lt b a = false)
    (htr : ∀ a b c, lt b a = false → lt c b = false → lt c a = false)
    (x : α) (l : List α) (hl : List.Pairwise (fun a b => lt b a = false) l) :
    List.Pairwise (fun a b => lt b a = false) (sInsert lt x l) := by
  induction l with
  | nil => simp [sInsert]
  | cons y ys ih =>
    rcases List.pairwise_cons.mp hl with ⟨hy, hys⟩
    by_cases h : lt y x
    · simp only [sInsert, if_pos h]
      refine List.pairwise_cons.mpr ⟨?_, ih hys⟩
      intro z hz
      have hz' : z = x ∨ z ∈ ys := by
        have := (sInsert_perm lt x ys).mem_iff.mp hz
        simpa using this
      rcases hz' with rfl | hz'
      · exact hasym _ _ h
      · exact hy z hz'
    · have hxy : lt y x = false := by
        cases hyx : lt y x
        · rfl
        · exact absurd hyx h
      simp only [sInsert, if_neg h]
      refine List.pairwise_cons.mpr ⟨?_, hl⟩
      intro z hz
      rcases List.mem_cons.mp hz with rfl | hz'
      · exact hxy
      · exact htr x y z hxy (hy z hz')

lemma stableSort_pairwise (lt : α → α → Bool)
    (hasym : ∀ a b, lt a b = true → lt b a = false)
    (htr : ∀ a b c, lt b a = false → lt c b = false → lt c a = false)
    (l : List α) :
    List.Pairwise (fun a b => lt b a = false) (stableSort lt l) := by
  induction l with
  | nil => simp [stableSort]
  | cons x xs ih => exact sInsert_pairwise lt hasym htr x _ ih

/-! ## Lemmas about sampling and distractor selection -/

/-- Taking a prefix is one legal `random.sample` outcome (used by concrete witnesses). -/
lemma sampleOk_take [DecidableEq α] : SampleOk (fun (l : List α) k => l.take k) := by
  intro l k
  exact ⟨(List.take_sublist k l).subperm, List.length_take k l⟩

lemma sampleOk_subset [DecidableEq α] {sample : List α → ℕ → List α}
    (hs : SampleOk sample) (l : List α) (k : ℕ) :
    ∀ x ∈ sample l k, x ∈ l := by
  intro x hx
  exact (hs l k).1.subset hx

lemma sampleOk_nodup [DecidableEq α] {sample : List α → ℕ → List α}
    (hs : SampleOk sample) (l : List α) (k : ℕ) (hl : l.Nodup) :
    (sample l k).Nodup := by
  rcases (hs l k).1 with ⟨t, htp, hts⟩
  exact htp.nodup (hl.sublist hts)

/-- Core shape shared by `QuizGame._options` and `FlashCard._options`: sampling `k`
elements (with `k ≤ |P|`) from a duplicate-free pool not containing `correct`, then
appending `correct`. -/
lemma sampleAppend_spec [DecidableEq α] (sample : List α → ℕ → List α)
    (hs : SampleOk sample) (c : α) (P : List α) (k : ℕ)
    (hP : P.Nodup) (hc : c ∉ P) (hk : k ≤ P.length) :
    (sample P k ++ [c]).length = k + 1 ∧
    (sample P k ++ [c]).count c = 1 ∧
    (sample P k ++ [c]).Nodup := by
  have hlen : (sample P k).length = k := by
    rw [(hs P k).2]; exact min_eq_left hk
  have hcs : c ∉ sample P k := fun hmem => hc (sampleOk_subset hs P k c hmem)
  refine ⟨?_, ?_, ?_⟩
  · simp [hlen]
  · rw [List.count_append]
    rw [List.count_eq_zero.mpr hcs]
    simp
  · rw [List.nodup_append]
    exact ⟨sampleOk_nodup hs P k hP, List.nodup_singleton c,
      by simpa [List.Disjoint] using fun x hx (hxc : x = c) => hcs (hxc ▸ hx)⟩

lemma mainOptionsPool_nodup (correct : String) (pool : List String) :
    (mainOptionsPool correct pool).Nodup :=
  (dedupFirst_nodup pool).filter _

lemma mainOptionsPool_not_mem (correct : String) (pool : List String) :
    correct ∉ mainOptionsPool correct pool := by
  intro hc
  have := (List.mem_filter.mp hc).2
  simp at this

lemma flashOptionsPool_nodup (correct : String) (pool : List OptV) :
    (flashOptionsPool correct pool).Nodup :=
  (dedupFirst_nodup pool).filter _

lemma flashOptionsPool_not_mem (correct : String) (pool : List OptV) :
    OptV.str correct ∉ flashOptionsPool correct pool := by
  intro hc
  have := (List.mem_filter.mp hc).2
  simp at this

lemma flashOptionsPool_subset (correct : String) (pool : List OptV) :
    ∀ x ∈ flashOptionsPool correct pool, x ∈ pool := by
  intro x hx
  exact (dedupFirst_mem pool x).mp (List.mem_filter.mp hx).1

/-- Membership in the pre-top-up group of `_get_options`. -/
lemma flashGroup_mem (qid a kw : String) (data : List FRec) (x : OptV) :
    x ∈ flashGroup qid a kw data ↔
      x = OptV.str a ∨
      ∃ r ∈ data, r.rid ≠ qid ∧ strContains (pyLower r.ques) kw = true ∧ x = OptV.str r.ans := by
  simp only [flashGroup, dedupFirst_mem, List.mem_cons, List.mem_map, List.mem_filter]
  constructor
  · rintro (rfl | ⟨r, ⟨hr, hcond⟩, rfl⟩)
    · exact Or.inl rfl
    · have hcond' := hcond
      simp only [Bool.and_eq_true, bne_iff_ne, Bool.not_eq_true'] at hcond'
      refine Or.inr ⟨r, hr, ?_, ?_, rfl⟩
      · simpa using hcond'.1
      · exact hcond'.2
  · rintro (rfl | ⟨r, hr, hne, hkw, rfl⟩)
    · exact Or.inl rfl
    · refine Or.inr ⟨r, ⟨hr, ?_⟩, rfl⟩
      simp [hne, hkw]

/-- The OptV string constructor is injective (distinct answers stay distinct in the
heterogeneous pool). -/
lemma optvStr_injective : Function.Injective OptV.str := by
  intro a b h
  cases h
  rfl

/-- The group size is at most one more than the number of distinct restricted
candidate answers. -/
lemma flashGroup_length_le (qid a kw : String) (data : List FRec) :
    (flashGroup qid a kw data).length ≤ (restrictedAnswers qid kw data).length + 1 := by
  unfold flashGroup restrictedAnswers
  set raw := (data.filter
    (fun row => !(row.rid == qid) && strContains (pyLower row.ques) kw)) with hraw
  have hmap : raw.map (fun row => OptV.str row.ans) = (raw.map (fun row => row.ans)).map OptV.str := by
    simp [List.map_map]
  rw [hmap]
  refine le_trans (dedupFirst_cons_length _ _) ?_
  rw [dedupFirst_map_length OptV.str optvStr_injective]

/-- Elements of the final option list of `_get_options` in the grouping branch:
every option is the rendering of something in the (possibly topped-up) group. -/
lemma flashOptions_mem_of_group (sampleOpt : List OptV → ℕ → List OptV)
    (hOpt : SampleOk sampleOpt) (a : String) (pool : List OptV) (n : ℕ) :
    ∀ v ∈ flashOptions sampleOpt a pool n, v = OptV.str a ∨ v ∈ pool := by
  intro v hv
  rcases List.mem_append.mp hv with hv | hv
  · exact Or.inr (flashOptionsPool_subset a pool v (sampleOk_subset hOpt _ _ v hv))
  · simp only [List.mem_singleton] at hv
    exact Or.inl hv

/-! ## Lemmas about the session interpreters -/

/-- Invariant of the `FlashCard._quiz` loop: whenever the loop produces an export, its
score is the number of `ok` result rows, the reported total is the number of exported
rows, and the statistics fields follow the `_export_results` formulas. -/
lemma runFlashAux_stats (data : List FRec) (optsFor : ℕ → List String) (totalQs : ℕ) :
    ∀ (pool : List FRec) (i : ℕ) (results : List FRow) (score : ℕ)
      (inputs : List String) (e : Export FRow),
      score = results.countP (fun r => r.ok) →
      runFlashAux data optsFor totalQs pool i results score inputs = some e →
      e.score = e.rows.countP (fun r => r.ok) ∧ e.total = e.rows.length ∧
      e.wrong = (e.total : ℤ) - (e.score : ℤ) ∧
      e.percent = (if e.total = 0 then (0 : ℚ) else (e.score : ℚ) / (e.total : ℚ) * 100) := by
  intro pool
  induction pool with
  | nil =>
    intro i results score inputs e hsc hrun
    simp only [runFlashAux, Option.some.injEq] at hrun
    subst hrun
    exact ⟨hsc, rfl, rfl, rfl⟩
  | cons r rest ih =>
    intro i results score inputs e hsc hrun
    simp only [runFlashAux] at hrun
    split at hrun
    · cases hrun
    · simp only [Option.some.injEq] at hrun
      subst hrun
      exact ⟨hsc, rfl, rfl, rfl⟩
    · rename_i chosen inputs' _
      split at hrun
      · split at hrun
        · cases hrun
        · rename_i hd tl heqX
          refine ih (i + 1) _ _ tl e ?_ hrun
          cases hok : flashCheckAnswer chosen r.rid data <;>
            simp [List.countP_append, hsc, List.countP_cons, hok]
      · refine ih (i + 1) _ _ inputs' e ?_ hrun
        cases hok : flashCheckAnswer chosen r.rid data <;>
          simp [List.countP_append, hsc, List.countP_cons, hok]

/-- Invariant of the `QuizGame._quiz` loop (`main.py`): same statistics shape. -/
lemma runMainAux_stats (data : List MRec) (optsFor : ℕ → List String) :
    ∀ (pool : List MRec) (i : ℕ) (results : List MRow) (score : ℕ)
      (inputs : List String) (e : Export MRow),
      score = results.countP (fun r => r.ok) →
      runMainAux data optsFor pool i results score inputs = some e →
      e.score = e.rows.countP (fun r => r.ok) ∧ e.total = e.rows.length ∧
      e.wrong = (e.total : ℤ) - (e.score : ℤ) ∧
      e.percent = (if e.total = 0 then (0 : ℚ) else (e.score : ℚ) / (e.total : ℚ) * 100) := by
  intro pool
  induction pool with
  | nil =>
    intro i results score inputs e hsc hrun
    simp only [runMainAux, Option.some.injEq] at hrun
    subst hrun
    exact ⟨hsc, rfl, rfl, rfl⟩
  | cons r rest ih =>
    intro i results score inputs e hsc hrun
    simp only [runMainAux] at hrun
    split at hrun
    · cases hrun
    · rename_i chosen inputs' _
      refine ih (i + 1) _ _ inputs' e ?_ hrun
      cases hok : mainCheckAnswer chosen r.ques data <;>
        simp [List.countP_append, hsc, List.countP_cons, hok]

/-- The answer loop of `main.py` never terminates the question on any input line that
is not a valid option label: in particular no exit token is recognized. -/
lemma mainAwait_none (mapping : List (String × String)) :
    ∀ inputs : List String, (∀ s ∈ inputs, lookupMap (pyStrip (pyLower s)) mapping = none) →
      mainAwait mapping inputs = none := by
  intro inputs
  induction inputs with
  | nil => intro _; rfl
  | cons s rest ih =>
    intro h
    simp only [mainAwait]
    rw [h s (List.mem_cons_self _ _)]
    exact ih fun t ht => h t (List.mem_cons_of_mem _ ht)

/-! ## Lemmas about bank persistence -/

lemma fieldIdx_lt_length (key : String) :
    ∀ header : List String, ∀ j, fieldIdx key header = some j → j < header.length := by
  intro header
  induction header with
  | nil => intro j h; cases h
  | cons x t ih =>
    intro j h
    by_cases hx : x == key
    · simp only [fieldIdx, if_pos hx, Option.some.injEq] at h
      subst h
      simp
    · simp only [fieldIdx, if_neg hx, Option.map_eq_some'] at h
      obtain ⟨j', hj', rfl⟩ := h
      simpa using Nat.succ_lt_succ (ih j' hj')

/-- Every `row.get(key, "")` succeeds (never yields a `None` cell) whenever the row is
at least as long as the header. -/
lemma dGet_isSome (header row : List String) (key : String)
    (hlen : header.length ≤ row.length) : ∃ s, dGet header row key = some s := by
  unfold dGet
  cases hidx : fieldIdx key header with
  | none => exact ⟨"", rfl⟩
  | some j =>
    have hj : j < row.length := lt_of_lt_of_le (fieldIdx_lt_length key header j hidx) hlen
    cases hget : row.get? j with
    | none => exact absurd (List.get?_eq_none.mp hget) (not_le.mpr hj)
    | some s => exact ⟨s, hget⟩

/-- A full-length row always parses. -/
lemma flashLoadRow_ok (fresh : String) (header row : List String) (src : String)
    (hlen : header.length ≤ row.length) :
    ∃ r, flashLoadRow fresh header row src = .ok r := by
  obtain ⟨s1, h1⟩ := dGet_isSome header row "id" hlen
  obtain ⟨s2, h2⟩ := dGet_isSome header row "answer" hlen
  obtain ⟨s3, h3⟩ := dGet_isSome header row "question" hlen
  obtain ⟨s4, h4⟩ := dGet_isSome header row "hint" hlen
  obtain ⟨s5, h5⟩ := dGet_isSome header row "desc" hlen
  refine ⟨⟨if pyStrip s1 = "" then fresh else pyStrip s1, pyStrip s2, pyStrip s3,
    pyStrip s4, pyStrip s5, src⟩, ?_⟩
  simp [flashLoadRow, h1, h2, h3, h4, h5, pyStripOpt]

/-- Parsing one row written by `flashSave` under the standard header. -/
lemma flashLoadRow_headerF (fresh i0 a q h d src : String) :
    flashLoadRow fresh headerF [i0, a, q, h, d] src =
      .ok ⟨if pyStrip i0 = "" then fresh else pyStrip i0,
           pyStrip a, pyStrip q, pyStrip h, pyStrip d, src⟩ := rfl

/-- Loading the rows written for a record list whose fields are already stripped and
whose ids are non-empty reproduces the records (with the source field set). -/
lemma flashLoadRows_of_saved (fresh : ℕ → String) (src : String) :
    ∀ (l : List FRec),
      (∀ r ∈ l, pyStrip r.rid = r.rid ∧ r.rid ≠ "" ∧ pyStrip r.ans = r.ans ∧
        pyStrip r.ques = r.ques ∧ pyStrip r.hint = r.hint ∧ pyStrip r.desc = r.desc) →
      ∀ i, flashLoadRows fresh headerF src i (l.map flashRow) =
        .ok (l.map (fun r => ⟨r.rid, r.ans, r.ques, r.hint, r.desc, src⟩)) := by
  intro l
  induction l with
  | nil => intro _ i; rfl
  | cons r t ih =>
    intro hfix i
    obtain ⟨hid, hne, hans, hques, hhint, hdesc⟩ := hfix r (List.mem_cons_self _ _)
    have hrow : flashRow r ≠ ([] : List String) := by simp [flashRow]
    simp only [List.map_cons, flashLoadRows, if_neg hrow]
    have h1 : flashLoadRow (fresh i) headerF (flashRow r) src =
        .ok ⟨r.rid, r.ans, r.ques, r.hint, r.desc, src⟩ := by
      rw [show flashRow r = [r.rid, r.ans, r.ques, r.hint, r.desc] from rfl,
        flashLoadRow_headerF]
      rw [hid, hans, hques, hhint, hdesc, if_neg hne]
    rw [h1, ih (fun x hx => hfix x (List.mem_cons_of_mem _ hx)) (i + 1)]

/-! ## Lemmas about pool construction -/

lemma flatten_replicate_length {α : Type} (k : ℕ) (l : List α) :
    (List.flatten (List.replicate k l)).length = k * l.length := by
  induction k with
  | zero => simp
  | succ k ih => simp [List.replicate_succ, ih, Nat.succ_mul, Nat.add_comm]

/-- For `max_qs ≤ len(data)` the repetition step of `main.py` keeps only the first
`max_qs` records: the pool can never contain a record beyond that prefix. -/
lemma mainRepeat_eq_take (data : List MRec) (maxQs : ℕ) (h : maxQs ≤ data.length) :
    mainRepeat data maxQs = data.take maxQs := by
  unfold mainRepeat
  rw [List.replicate_succ, List.flatten_cons]
  exact List.take_append_of_le_length h

lemma mainRepeat_length (data : List MRec) (maxQs : ℕ) (h : data ≠ []) :
    (mainRepeat data maxQs).length = maxQs := by
  have hpos : 0 < data.length := List.length_pos.mpr h
  unfold mainRepeat
  rw [List.length_take, flatten_replicate_length]
  refine min_eq_left ?_
  have hmod : maxQs % data.length < data.length := Nat.mod_lt _ hpos
  calc maxQs = data.length * (maxQs / data.length) + maxQs % data.length :=
        (Nat.div_add_mod maxQs data.length).symm
    _ ≤ data.length * (maxQs / data.length) + data.length := by
        exact Nat.add_le_add_left hmod.le _
    _ = (maxQs / data.length + 1) * data.length := by ring

lemma guiPadLoopF_length (qs : List GRec) (hqs : 1 ≤ qs.length) :
    ∀ (fuel : ℕ) (pool : List GRec), GUI_MAX_QUESTIONS ≤ pool.length + fuel →
      GUI_MAX_QUESTIONS ≤ (guiPadLoopF qs fuel pool).length := by
  intro fuel
  induction fuel with
  | zero =>
    intro pool h
    simpa [guiPadLoopF] using h
  | succ fuel ih =>
    intro pool h
    by_cases hlt : pool.length < GUI_MAX_QUESTIONS
    · simp only [guiPadLoopF, if_pos hlt]
      refine ih (pool ++ qs) ?_
      rw [List.length_append]
      omega
    · simp only [guiPadLoopF, if_neg hlt]
      omega

lemma guiPadLoopF_mem (qs : List GRec) :
    ∀ (fuel : ℕ) (pool : List GRec), ∀ x ∈ guiPadLoopF qs fuel pool, x ∈ pool ∨ x ∈ qs := by
  intro fuel
  induction fuel with
  | zero => intro pool x hx; exact Or.inl hx
  | succ fuel ih =>
    intro pool x hx
    by_cases hlt : pool.length < GUI_MAX_QUESTIONS
    · simp only [guiPadLoopF, if_pos hlt] at hx
      rcases ih (pool ++ qs) x hx with h | h
      · rcases List.mem_append.mp h with h | h
        · exact Or.inl h
        · exact Or.inr h
      · exact Or.inr h
    · simp only [guiPadLoopF, if_neg hlt] at hx
      exact Or.inl hx

/-- Reduction of `_get_options` in the grouping branch. -/
lemma flashGetOptions_group_eq (sampleTop sampleOpt : List OptV → ℕ → List OptV)
    (qid q a : String) (data : List FRec) (allAns : List OptV) (n : ℕ) (kw : String)
    (hb : hasBoolKw q = false) (hk : firstKw q = some kw) :
    flashGetOptions sampleTop sampleOpt qid q a data allAns n =
      (dedupFirst (flashOptions sampleOpt a
        (if (flashGroup qid a kw data).length < (if n = 0 then 4 else n) then
           dedupFirst (flashGroup qid a kw data ++ sampleTop allAns (min allAns.length 10))
         else flashGroup qid a kw data) n)).map replaceColorsOpt := by
  simp [flashGetOptions, hb, hk]

/-! ## Claim theorems -/

/-- Claim C1: for every distractor-generation call (`QuizGame._options` in `main.py`
lines 171-173 and `FlashCard._options` in `flashcards_qiuzgame.py` lines 325-335; all
call sites pass an option count `n ≥ 1`) whose candidate pool — all other answers
minus the correct answer and minus the boolean tokens — has at least `n - 1` elements,
the returned option set has exactly `n` entries, contains the correct answer exactly
once, and contains no duplicate entries.  Proved for every legal `random.sample`
outcome. -/
theorem claim1_option_set_spec :
    (∀ (sample : List String → ℕ → List String) (correct : String) (pool : List String)
       (n : ℕ), SampleOk sample → 1 ≤ n →
       n - 1 ≤ (mainOptionsPool correct pool).length →
       (mainOptions sample correct pool n).length = n ∧
       (mainOptions sample correct pool n).count correct = 1 ∧
       (mainOptions sample correct pool n).Nodup) ∧
    (∀ (sample : List OptV → ℕ → List OptV) (correct : String) (pool : List OptV)
       (n : ℕ), SampleOk sample → 1 ≤ n →
       n - 1 ≤ (flashOptionsPool correct pool).length →
       (flashOptions sample correct pool n).length = n ∧
       (flashOptions sample correct pool n).count (OptV.str correct) = 1 ∧
       (flashOptions sample correct pool n).Nodup) := by
  constructor
  · intro sample correct pool n hs h1 hlen
    obtain ⟨hl, hcnt, hnd⟩ := sampleAppend_spec sample hs correct
      (mainOptionsPool correct pool) (min (n - 1) (mainOptionsPool correct pool).length)
      (mainOptionsPool_nodup correct pool) (mainOptionsPool_not_mem correct pool)
      (min_le_right _ _)
    refine ⟨?_, hcnt, hnd⟩
    unfold mainOptions
    rw [hl, min_eq_left hlen, Nat.sub_add_cancel h1]
  · intro sample correct pool n hs h1 hlen
    obtain ⟨hl, hcnt, hnd⟩ := sampleAppend_spec sample hs (OptV.str correct)
      (flashOptionsPool correct pool) (min (flashOptionsPool correct pool).length (n - 1))
      (flashOptionsPool_nodup correct pool) (flashOptionsPool_not_mem correct pool)
      (min_le_left _ _)
    refine ⟨?_, hcnt, hnd⟩
    unfold flashOptions
    rw [hl, min_eq_right hlen, Nat.sub_add_cancel h1]

/-- Witness for C1 at a concrete input. -/
theorem claim1_witness :
    (1 : ℕ) ≤ 2 ∧
    (2 : ℕ) - 1 ≤ (mainOptionsPool "c" ["a", "b", "c"]).length ∧
    (mainOptions (fun l k => l.take k) "c" ["a", "b", "c"] 2).length = 2 ∧
    (mainOptions (fun l k => l.take k) "c" ["a", "b", "c"] 2).count "c" = 1 ∧
    (mainOptions (fun l k => l.take k) "c" ["a", "b", "c"] 2).Nodup ∧
    (flashOptions (fun l k => l.take k) "c" [OptV.str "a", OptV.str "b"] 2).length = 2 := by
  have h1 := claim1_option_set_spec.1 (fun l k => l.take k) "c" ["a", "b", "c"] 2
    sampleOk_take (by decide) (by decide)
  have h2 := claim1_option_set_spec.2 (fun l k => l.take k) "c"
    [OptV.str "a", OptV.str "b"] 2 sampleOk_take (by decide) (by decide)
  exact ⟨by decide, by decide, h1.1, h1.2.1, h1.2.2, h2.1⟩

/-- Claim C2: every distractor-generation call of `FlashCard._get_options` whose
question text contains a configured boolean keyword (case-insensitive substring match
against `KEYWORD_BOOL`) returns exactly the two boolean tokens, regardless of the
requested option count `n`. -/
theorem claim2_bool_tokens (sampleTop sampleOpt : List OptV → ℕ → List OptV)
    (qid q a : String) (data : List FRec) (allAns : List OptV) (n : ℕ)
    (hb : hasBoolKw q = true) :
    flashGetOptions sampleTop sampleOpt qid q a data allAns n = [dungTok, saiTok] := by
  simp [flashGetOptions, hb]

/-- Witness for C2 at a concrete input (the question contains the configured keyword
`dung`, and `n = 9` is ignored). -/
theorem claim2_witness :
    hasBoolKw "Dung hay sai?" = true ∧
    flashGetOptions (fun l k => l.take k) (fun l k => l.take k) "1" "Dung hay sai?" "A"
      [] [] 9 = [dungTok, saiTok] :=
  ⟨by decide,
   claim2_bool_tokens (fun l k => l.take k) (fun l k => l.take k) "1" "Dung hay sai?" "A"
     [] [] 9 (by decide)⟩

/-- Claim C3: for a non-boolean question matching a configured grouping keyword (the
first match `kw` of the `KEYWORD` scan), `FlashCard._get_options` restricts the
distractor candidate pool to the answers of other records whose question also contains
`kw` (first two conjuncts: when the top-up branch is not taken, every returned option
renders either the correct answer or such a restricted answer), and whenever the
restricted pool has fewer than `n - 1` distinct candidates the top-up branch fires and
the only further candidates come from the full unrestricted pool `all_ans` (first and
third conjuncts). -/
theorem claim3_grouping (sampleTop sampleOpt : List OptV → ℕ → List OptV)
    (qid q a : String) (data : List FRec) (allAns : List OptV) (n : ℕ) (kw : String)
    (hTop : SampleOk sampleTop) (hOpt : SampleOk sampleOpt)
    (hb : hasBoolKw q = false) (hk : firstKw q = some kw) (h1 : 1 ≤ n) :
    ((restrictedAnswers qid kw data).length < n - 1 →
       flashTopUpTriggered qid a kw data n = true) ∧
    (flashTopUpTriggered qid a kw data n = false →
       ∀ x ∈ flashGetOptions sampleTop sampleOpt qid q a data allAns n,
         x = replaceColorsStr a ∨
         ∃ r ∈ data, r.rid ≠ qid ∧ strContains (pyLower r.ques) kw = true ∧
           x = replaceColorsStr r.ans) ∧
    (∀ x ∈ flashGetOptions sampleTop sampleOpt qid q a data allAns n,
       x = replaceColorsStr a ∨
       (∃ r ∈ data, r.rid ≠ qid ∧ strContains (pyLower r.ques) kw = true ∧
         x = replaceColorsStr r.ans) ∨
       ∃ v ∈ allAns, x = replaceColorsOpt v) := by
  have hmem : ∀ group2 : List OptV,
      ∀ x ∈ (dedupFirst (flashOptions sampleOpt a group2 n)).map replaceColorsOpt,
        x = replaceColorsStr a ∨ ∃ v ∈ group2, x = replaceColorsOpt v := by
    intro group2 x hx
    rcases List.mem_map.mp hx with ⟨v, hv, rfl⟩
    have hv' := (dedupFirst_mem _ v).mp hv
    rcases flashOptions_mem_of_group sampleOpt hOpt a group2 n v hv' with rfl | hvg
    · exact Or.inl rfl
    · exact Or.inr ⟨v, hvg, rfl⟩
  have hgroup : ∀ v ∈ flashGroup qid a kw data,
      replaceColorsOpt v = replaceColorsStr a ∨
      ∃ r ∈ data, r.rid ≠ qid ∧ strContains (pyLower r.ques) kw = true ∧
        replaceColorsOpt v = replaceColorsStr r.ans := by
    intro v hv
    rcases (flashGroup_mem qid a kw data v).mp hv with rfl | ⟨r, hr, hne, hkw2, rfl⟩
    · exact Or.inl rfl
    · exact Or.inr ⟨r, hr, hne, hkw2, rfl⟩
  refine ⟨?_, ?_, ?_⟩
  · intro hres
    unfold flashTopUpTriggered
    have hgl := flashGroup_length_le qid a kw data
    have hlt : (flashGroup qid a kw data).length < n := by omega
    have hn : n ≠ 0 := by omega
    simp [hn, hlt]
  · intro hTrig
    have hcond : ¬ ((flashGroup qid a kw data).length < (if n = 0 then 4 else n)) := by
      unfold flashTopUpTriggered at hTrig
      exact of_decide_eq_false hTrig
    rw [flashGetOptions_group_eq sampleTop sampleOpt qid q a data allAns n kw hb hk,
      if_neg hcond]
    intro x hx
    rcases hmem _ x hx with h | ⟨v, hv, rfl⟩
    · exact Or.inl h
    · exact hgroup v hv
  · rw [flashGetOptions_group_eq sampleTop sampleOpt qid q a data allAns n kw hb hk]
    by_cases hcond : (flashGroup qid a kw data).length < (if n = 0 then 4 else n)
    · rw [if_pos hcond]
      intro x hx
      rcases hmem _ x hx with h | ⟨v, hv, rfl⟩
      · exact Or.inl h
      · have hv' := (dedupFirst_mem _ v).mp hv
        rcases List.mem_append.mp hv' with hv2 | hv2
        · rcases hgroup v hv2 with h | h
          · exact Or.inl h
          · exact Or.inr (Or.inl h)
        · exact Or.inr (Or.inr ⟨v, sampleOk_subset hTop allAns _ v hv2, rfl⟩)
    · rw [if_neg hcond]
      intro x hx
      rcases hmem _ x hx with h | ⟨v, hv, rfl⟩
      · exact Or.inl h
      · rcases hgroup v hv with h | h
        · exact Or.inl h
        · exact Or.inr (Or.inl h)

/-- Witness for C3 at a concrete input: the question `x là ai` matches the configured
keyword `là ai`, record `2` shares it, record `3` does not. -/
theorem claim3_witness :
    hasBoolKw "x là ai" = false ∧ firstKw "x là ai" = some "là ai" ∧
    ((restrictedAnswers "1" "là ai"
        [⟨"1", "A", "x là ai", "", "", ""⟩, ⟨"2", "B", "y là ai", "", "", ""⟩,
         ⟨"3", "C", "z khác", "", "", ""⟩]).length < 2 - 1 →
      flashTopUpTriggered "1" "A" "là ai"
        [⟨"1", "A", "x là ai", "", "", ""⟩, ⟨"2", "B", "y là ai", "", "", ""⟩,
         ⟨"3", "C", "z khác", "", "", ""⟩] 2 = true) ∧
    (flashTopUpTriggered "1" "A" "là ai"
        [⟨"1", "A", "x là ai", "", "", ""⟩, ⟨"2", "B", "y là ai", "", "", ""⟩,
         ⟨"3", "C", "z khác", "", "", ""⟩] 2 = false →
      ∀ x ∈ flashGetOptions (fun l k => l.take k) (fun l k => l.take k) "1" "x là ai" "A"
          [⟨"1", "A", "x là ai", "", "", ""⟩, ⟨"2", "B", "y là ai", "", "", ""⟩,
           ⟨"3", "C", "z khác", "", "", ""⟩] [] 2,
        x = replaceColorsStr "A" ∨
        ∃ r ∈ [(⟨"1", "A", "x là ai", "", "", ""⟩ : FRec), ⟨"2", "B", "y là ai", "", "", ""⟩,
            ⟨"3", "C", "z khác", "", "", ""⟩],
          r.rid ≠ "1" ∧ strContains (pyLower r.ques) "là ai" = true ∧
          x = replaceColorsStr r.ans) := by
  have h := claim3_grouping (fun l k => l.take k) (fun l k => l.take k) "1" "x là ai" "A"
    [⟨"1", "A", "x là ai", "", "", ""⟩, ⟨"2", "B", "y là ai", "", "", ""⟩,
     ⟨"3", "C", "z khác", "", "", ""⟩] [] 2 "là ai" sampleOk_take sampleOk_take
    (by decide) (by decide) (by decide)
  exact ⟨by decide, by decide, h.1, h.2.1⟩

/-- Counterexample to claim C4: in `FlashCard._quiz` the pool for `max_qs = 5` over a
bank of two records has only two entries for every legal sampling outcome (here the
identity permutation): the record list is never repeated to reach `max_qs`. -/
theorem claim4_counterexample :
    List.Perm [(⟨"1", "a", "q", "", "", ""⟩ : FRec), ⟨"2", "b", "r", "", "", ""⟩]
      [(⟨"1", "a", "q", "", "", ""⟩ : FRec), ⟨"2", "b", "r", "", "", ""⟩] ∧
    (flashBuildPool [⟨"1", "a", "q", "", "", ""⟩, ⟨"2", "b", "r", "", "", ""⟩]
      [⟨"1", "a", "q", "", "", ""⟩, ⟨"2", "b", "r", "", "", ""⟩] 5).length = 2 ∧
    ¬ (flashBuildPool [⟨"1", "a", "q", "", "", ""⟩, ⟨"2", "b", "r", "", "", ""⟩]
      [⟨"1", "a", "q", "", "", ""⟩, ⟨"2", "b", "r", "", "", ""⟩] 5).length = 5 :=
  ⟨List.Perm.refl _, by decide, by decide⟩

/-- Claim C4 as amended: the GUI variant implements both specified behaviours
(sample-without-replacement when records suffice, pad-by-repetition to exactly 20
otherwise); the flashcards variant never pads — its pool has
`min maxQuestions (number of records)` entries; the `main.py` variant always produces
exactly `maxQuestions` entries, but when `maxQuestions` is at most the record count
its pool draws only from the first `maxQuestions` records (a shuffled prefix, not a
sample of the whole list). -/
theorem claim4_amended :
    (∀ (qs permS permP : List GRec), GUI_MAX_QUESTIONS ≤ qs.length →
       List.Perm permS qs →
       (guiPrepare qs permS permP).length = GUI_MAX_QUESTIONS ∧
       (∀ x ∈ guiPrepare qs permS permP, x ∈ qs) ∧
       (qs.Nodup → (guiPrepare qs permS permP).Nodup)) ∧
    (∀ (qs permS permP : List GRec), 1 ≤ qs.length → qs.length < GUI_MAX_QUESTIONS →
       List.Perm permP (guiPadPool qs) →
       (guiPrepare qs permS permP).length = GUI_MAX_QUESTIONS ∧
       ∀ x ∈ guiPrepare qs permS permP, x ∈ qs) ∧
    (∀ (data perm : List FRec) (maxQs : ℕ), 1 ≤ maxQs → List.Perm perm data →
       (flashBuildPool data perm maxQs).length = min maxQs data.length ∧
       (∀ x ∈ flashBuildPool data perm maxQs, x ∈ data) ∧
       (data.Nodup → (flashBuildPool data perm maxQs).Nodup)) ∧
    (∀ (data perm : List MRec) (maxQs : ℕ), data ≠ [] →
       List.Perm perm (mainRepeat data maxQs) →
       (mainBuildPool perm maxQs).length = maxQs ∧
       (maxQs ≤ data.length → ∀ x ∈ mainBuildPool perm maxQs, x ∈ data.take maxQs)) := by
  refine ⟨?_, ?_, ?_, ?_⟩
  · intro qs permS permP hlen hperm
    have hlenS : permS.length = qs.length := hperm.length_eq
    unfold guiPrepare
    rw [if_pos hlen]
    refine ⟨?_, ?_, ?_⟩
    · rw [List.length_take, hlenS]
      exact min_eq_left hlen
    · intro x hx
      exact hperm.mem_iff.mp (List.mem_of_mem_take hx)
    · intro hnd
      exact (hperm.symm.nodup hnd).sublist (List.take_sublist _ _)
  · intro qs permS permP hq1 hlt hperm
    have hpad : GUI_MAX_QUESTIONS ≤ (guiPadPool qs).length :=
      guiPadLoopF_length qs hq1 GUI_MAX_QUESTIONS [] (by simp)
    have hlenP : permP.length = (guiPadPool qs).length := hperm.length_eq
    unfold guiPrepare
    rw [if_neg (not_le.mpr hlt)]
    refine ⟨?_, ?_⟩
    · rw [List.length_take, hlenP]
      exact min_eq_left hpad
    · intro x hx
      have hx2 : x ∈ guiPadPool qs := hperm.mem_iff.mp (List.mem_of_mem_take hx)
      rcases guiPadLoopF_mem qs GUI_MAX_QUESTIONS [] x hx2 with h | h
      · cases h
      · exact h
  · intro data perm maxQs h1 hperm
    have hm : maxQs ≠ 0 := by omega
    have hlenP : perm.length = data.length := hperm.length_eq
    unfold flashBuildPool
    rw [if_neg hm]
    refine ⟨?_, ?_, ?_⟩
    · rw [List.length_take, hlenP]
      rcases le_total maxQs data.length with h | h
      · rw [min_eq_left h, min_eq_left h]
      · rw [min_eq_right h, min_eq_right (le_refl _)]
    · intro x hx
      exact hperm.mem_iff.mp (List.mem_of_mem_take hx)
    · intro hnd
      exact (hperm.symm.nodup hnd).sublist (List.take_sublist _ _)
  · intro data perm maxQs hne hperm
    have hlenP : perm.length = maxQs := hperm.length_eq.trans (mainRepeat_length data maxQs hne)
    refine ⟨?_, ?_⟩
    · unfold mainBuildPool
      rw [List.length_take, hlenP, min_self]
    · intro hle x hx
      have hx2 : x ∈ mainRepeat data maxQs := hperm.mem_iff.mp (List.mem_of_mem_take hx)
      rwa [mainRepeat_eq_take data maxQs hle] at hx2

/-- Witness for C4 (amended) at concrete inputs for all four conjuncts. -/
theorem claim4_witness :
    (guiPrepare (List.replicate 20 ⟨"1", "a", "q"⟩)
      (List.replicate 20 ⟨"1", "a", "q"⟩) []).length = GUI_MAX_QUESTIONS ∧
    (guiPrepare [⟨"1", "a", "q"⟩] [] (guiPadPool [⟨"1", "a", "q"⟩])).length =
      GUI_MAX_QUESTIONS ∧
    (flashBuildPool [⟨"1", "a", "q", "", "", ""⟩] [⟨"1", "a", "q", "", "", ""⟩] 1).length =
      min 1 1 ∧
    (mainBuildPool (mainRepeat [⟨"1", "a", "q", "", ""⟩] 3) 3).length = 3 := by
  refine ⟨?_, ?_, ?_, ?_⟩
  · exact (claim4_amended.1 (List.replicate 20 ⟨"1", "a", "q"⟩) _ [] (by decide)
      (List.Perm.refl _)).1
  · exact (claim4_amended.2.1 [⟨"1", "a", "q"⟩] [] _ (by decide) (by decide)
      (List.Perm.refl _)).1
  · exact (claim4_amended.2.2.1 [⟨"1", "a", "q", "", "", ""⟩] _ 1 (by decide)
      (List.Perm.refl _)).1
  · exact (claim4_amended.2.2.2 [⟨"1", "a", "q", "", ""⟩] _ 3 (by simp)
      (List.Perm.refl _)).1

/-- Counterexample to claim C5: scoring in `FlashCard._check_answer` also removes
trailing full stops, so a chosen text `a.` is scored as correct against the stored
answer `a` even though the specified comparison (case-insensitive after stripping
formatting tokens and surrounding whitespace) distinguishes them. -/
theorem claim5_counterexample :
    flashCheckAnswer "a." "1" [⟨"1", "a", "q", "", "", ""⟩] = true ∧
    claimNormalize "a." ≠ claimNormalize "a" := by
  constructor
  · decide
  · decide

/-- Claim C5 as amended: the chosen option's text is compared with the canonical
answer of the record located by id after removing ANSI escapes and colour tokens,
stripping surrounding whitespace, lowercasing, and removing trailing full stops
(`superClean`); and in a session run the score equals the number of result rows whose
comparison succeeded. -/
theorem claim5_amended :
    (∀ (chosen qid : String) (data : List FRec),
       flashCheckAnswer chosen qid data = true ↔
       ∃ r, data.find? (fun row => row.rid == qid) = some r ∧
         superClean chosen = superClean r.ans) ∧
    (∀ (data : List FRec) (optsFor : ℕ → List String) (pool : List FRec)
       (inputs : List String) (e : Export FRow),
       runFlash data optsFor pool inputs = some e →
       e.score = e.rows.countP (fun r => r.ok)) := by
  constructor
  · intro chosen qid data
    unfold flashCheckAnswer
    cases hf : data.find? (fun row => row.rid == qid) with
    | none =>
      simp only [Bool.false_eq_true, false_iff]
      rintro ⟨r, hr, _⟩
      cases hr
    | some target =>
      simp only [beq_iff_eq, Option.some.injEq]
      constructor
      · intro h
        exact ⟨target, rfl, h⟩
      · rintro ⟨r, rfl, h⟩
        exact h
  · intro data optsFor pool inputs e hrun
    exact (runFlashAux_stats data optsFor pool.length pool 1 [] 0 inputs e rfl hrun).1

/-- Witness for C5 (amended): the iff at a concrete input and a concrete one-question
session run. -/
theorem claim5_witness :
    (flashCheckAnswer "A" "1" [⟨"1", "a", "q", "", "", ""⟩] = true ↔
      ∃ r, [(⟨"1", "a", "q", "", "", ""⟩ : FRec)].find? (fun row => row.rid == "1") = some r ∧
        superClean "A" = superClean r.ans) ∧
    (mkExport ([⟨1, "q", "x", "", "", true, "1"⟩] : List FRow) 1 1).score =
      (mkExport ([⟨1, "q", "x", "", "", true, "1"⟩] : List FRow) 1 1).rows.countP
        (fun r => r.ok) := by
  constructor
  · exact claim5_amended.1 "A" "1" [⟨"1", "a", "q", "", "", ""⟩]
  · exact claim5_amended.2 [⟨"1", "x", "q", "", "", "s"⟩] (fun _ => ["x"])
      [⟨"1", "x", "q", "", "", "s"⟩] ["a"]
      (mkExport ([⟨1, "q", "x", "", "", true, "1"⟩] : List FRow) 1 1) rfl

/-- Counterexample to claim C6: saving a record whose answer carries trailing
whitespace and loading it back strips that whitespace, so the persisted fields are not
preserved (`"a "` comes back as `"a"`). -/
theorem claim6_counterexample :
    flashLoad (fun _ => "u") (flashSave [⟨"i", "a ", "q", "", "", ""⟩]) "b.csv" =
      .ok [⟨"i", "a", "q", "", "", "b.csv"⟩] ∧
    ¬ List.Perm ([(⟨"i", "a", "q", "", "", "b.csv"⟩ : FRec)].map flashRow)
      ([(⟨"i", "a ", "q", "", "", ""⟩ : FRec)].map flashRow) := by
  constructor
  · rfl
  · intro h
    have := List.Perm.mem_iff h (a := flashRow ⟨"i", "a", "q", "", "", "b.csv"⟩)
    simp only [List.map_cons, List.map_nil] at this
    have h2 : flashRow ⟨"i", "a", "q", "", "", "b.csv"⟩ =
        flashRow ⟨"i", "a ", "q", "", "", ""⟩ := by
      simpa using this.mp (by simp)
    exact absurd h2 (by decide)

/-- Claim C6 as amended: for records whose persisted fields are already
whitespace-stripped and whose ids are non-empty, saving and re-loading a bank yields a
permutation of the original records' persisted fields (ids preserved; the loader
additionally strips every field, which is the identity on such records). -/
theorem claim6_amended (recs : List FRec) (fresh : ℕ → String) (src : String)
    (hfix : ∀ r ∈ recs, pyStrip r.rid = r.rid ∧ r.rid ≠ "" ∧ pyStrip r.ans = r.ans ∧
      pyStrip r.ques = r.ques ∧ pyStrip r.hint = r.hint ∧ pyStrip r.desc = r.desc) :
    ∃ out, flashLoad fresh (flashSave recs) src = .ok out ∧
      List.Perm (out.map flashRow) (recs.map flashRow) := by
  have hsortfix : ∀ r ∈ stableSort flashLt recs, pyStrip r.rid = r.rid ∧ r.rid ≠ "" ∧
      pyStrip r.ans = r.ans ∧ pyStrip r.ques = r.ques ∧ pyStrip r.hint = r.hint ∧
      pyStrip r.desc = r.desc :=
    fun r hr => hfix r ((stableSort_perm flashLt recs).mem_iff.mp hr)
  refine ⟨(stableSort flashLt recs).map
    (fun r => ⟨r.rid, r.ans, r.ques, r.hint, r.desc, src⟩), ?_, ?_⟩
  · unfold flashSave flashLoad
    exact flashLoadRows_of_saved fresh src (stableSort flashLt recs) hsortfix 0
  · rw [List.map_map]
    have : (flashRow ∘ fun r : FRec => (⟨r.rid, r.ans, r.ques, r.hint, r.desc, src⟩ : FRec)) =
        flashRow := by
      funext r
      rfl
    rw [this]
    exact (stableSort_perm flashLt recs).map flashRow

/-- Witness for C6 (amended) at a concrete two-record bank. -/
theorem claim6_witness :
    ∃ out, flashLoad (fun _ => "u")
        (flashSave [⟨"i", "b", "q", "", "", ""⟩, ⟨"j", "a", "r", "h", "d", ""⟩]) "b.csv" =
      .ok out ∧
      List.Perm (out.map flashRow)
        ([(⟨"i", "b", "q", "", "", ""⟩ : FRec), ⟨"j", "a", "r", "h", "d", ""⟩].map flashRow) :=
  claim6_amended [⟨"i", "b", "q", "", "", ""⟩, ⟨"j", "a", "r", "h", "d", ""⟩]
    (fun _ => "u") "b.csv" (by decide)

/-- Counterexample to claim C7: in `QuizGame._quiz` of `main.py` the answer loop
accepts only option labels; sending the exit token at the first awaiting-answer state
does not finish the session (no export with the accumulated rows is ever produced —
the program stays blocked re-prompting). -/
theorem claim7_counterexample :
    runMain [⟨"1", "x", "q", "", ""⟩] (fun _ => ["x"]) [⟨"1", "x", "q", "", ""⟩]
      ["exit"] = none := by
  rfl

/-- Claim C7 as amended: in the flashcards variant, the exit token is honored at every
awaiting-answer state and immediately finishes the session, and the export then
contains exactly the result rows accumulated so far (`k` rows after `k` answered
questions — never `k+1` or `k-1`); the `main.py` variant recognizes no exit token at
all: any input line that is not a valid option label leaves the question pending. -/
theorem claim7_amended :
    (∀ (data : List FRec) (optsFor : ℕ → List String) (totalQs : ℕ) (r : FRec)
       (rest : List FRec) (i : ℕ) (results : List FRow) (score : ℕ) (s : String)
       (inputs : List String),
       pyUpper (pyStrip s) = "EXIT" →
       runFlashAux data optsFor totalQs (r :: rest) i results score (s :: inputs) =
         some (mkExport results score results.length) ∧
       (mkExport results score results.length).rows.length = results.length) ∧
    (∀ (mapping : List (String × String)) (inputs : List String),
       (∀ s ∈ inputs, lookupMap (pyStrip (pyLower s)) mapping = none) →
       mainAwait mapping inputs = none) := by
  constructor
  · intro data optsFor totalQs r rest i results score s inputs hExit
    constructor
    · have hAw : flashAwait (labelMap upperLabels (optsFor i)) (s :: inputs) =
          .quit inputs := by
        simp [flashAwait, hExit]
      simp only [runFlashAux]
      rw [hAw]
    · rfl
  · exact mainAwait_none

/-- Witness for C7 (amended): aborting at question 3 of a five-question pool with two
accumulated result rows exports exactly those two rows. -/
theorem claim7_witness :
    pyUpper (pyStrip " exit ") = "EXIT" ∧
    runFlashAux [] (fun _ => ["x"]) 5
      [⟨"3", "x", "q", "", "", "s"⟩, ⟨"4", "x", "q", "", "", "s"⟩,
       ⟨"5", "x", "q", "", "", "s"⟩] 3
      [⟨1, "q1", "x", "", "", false, "1"⟩, ⟨2, "q2", "x", "", "", true, "2"⟩] 1
      [" exit ", "later"] =
      some (mkExport [⟨1, "q1", "x", "", "", false, "1"⟩, ⟨2, "q2", "x", "", "", true, "2"⟩] 1 2) ∧
    (mkExport ([⟨1, "q1", "x", "", "", false, "1"⟩,
        ⟨2, "q2", "x", "", "", true, "2"⟩] : List FRow) 1 2).rows.length = 2 := by
  have h := claim7_amended.1 [] (fun _ => ["x"]) 5 ⟨"3", "x", "q", "", "", "s"⟩
    [⟨"4", "x", "q", "", "", "s"⟩, ⟨"5", "x", "q", "", "", "s"⟩] 3
    [⟨1, "q1", "x", "", "", false, "1"⟩, ⟨2, "q2", "x", "", "", true, "2"⟩] 1
    " exit " ["later"] (by decide)
  exact ⟨by decide, h.1, h.2⟩


/-! ## Lemmas about the persisted sort orders -/

lemma listLtB_irrefl : ∀ a : List Char, listLtB a a = false := by
  intro a
  induction a with
  | nil => rfl
  | cons x xs ih => simp [listLtB, lt_irrefl, ih]

lemma listLtB_asymm : ∀ a b : List Char, listLtB a b = true → listLtB b a = false := by
  intro a
  induction a with
  | nil =>
    intro b h
    cases b with
    | nil => simp [listLtB] at h
    | cons y ys => rfl
  | cons x xs ih =>
    intro b h
    cases b with
    | nil => simp [listLtB] at h
    | cons y ys =>
      simp only [listLtB] at h ⊢
      by_cases hxy : x < y
      · rw [if_neg (lt_asymm hxy), if_pos hxy]
      · rw [if_neg hxy] at h
        by_cases hyx : y < x
        · rw [if_pos hyx] at h; simp at h
        · rw [if_neg hyx] at h
          rw [if_neg hyx, if_neg hxy]
          exact ih ys h

lemma listLtB_transneg : ∀ a b c : List Char,
    listLtB b a = false → listLtB c b = false → listLtB c a = false := by
  intro a
  induction a with
  | nil =>
    intro b c _ _
    cases c with
    | nil => rfl
    | cons z zs => rfl
  | cons x xs ih =>
    intro b c h1 h2
    cases c with
    | nil =>
      cases b with
      | nil => simp [listLtB] at h1
      | cons y ys => simp [listLtB] at h2
    | cons z zs =>
      cases b with
      | nil => simp [listLtB] at h1
      | cons y ys =>
        simp only [listLtB] at h1 h2 ⊢
        by_cases hyx : y < x
        · rw [if_pos hyx] at h1; simp at h1
        by_cases hzy : z < y
        · rw [if_pos hzy] at h2; simp at h2
        have hxy' : x ≤ y := not_lt.mp hyx
        have hyz' : y ≤ z := not_lt.mp hzy
        have hzx : ¬ z < x := fun h => absurd (lt_of_lt_of_le h (hxy'.trans hyz')) (lt_irrefl z)
        rw [if_neg hyx] at h1
        rw [if_neg hzy] at h2
        rw [if_neg hzx]
        by_cases hxz : x < z
        · rw [if_pos hxz]
        · rw [if_neg hxz]
          have hxy2 : ¬ x < y := fun h => absurd (lt_of_lt_of_le h hyz') hxz
          have hyz2 : ¬ y < z := fun h => absurd (lt_of_le_of_lt hxy' h) hxz
          rw [if_neg hxy2] at h1
          rw [if_neg hyz2] at h2
          exact ih ys zs h1 h2

lemma listLtB_antisymm : ∀ a b : List Char,
    listLtB a b = false → listLtB b a = false → a = b := by
  intro a
  induction a with
  | nil =>
    intro b h1 _
    cases b with
    | nil => rfl
    | cons y ys => simp [listLtB] at h1
  | cons x xs ih =>
    intro b h1 h2
    cases b with
    | nil => simp [listLtB] at h2
    | cons y ys =>
      simp only [listLtB] at h1 h2
      by_cases hxy : x < y
      · rw [if_pos hxy] at h1; simp at h1
      · rw [if_neg hxy] at h1
        by_cases hyx : y < x
        · rw [if_pos hyx] at h2; simp at h2
        · rw [if_neg hyx] at h1
          rw [if_neg hyx, if_neg hxy] at h2
          have hx : x = y := le_antisymm (not_lt.mp hyx) (not_lt.mp hxy)
          rw [hx, ih ys h1 h2]

lemma strLtB_irrefl (a : String) : strLtB a a = false := listLtB_irrefl a.data

lemma strLtB_asymm (a b : String) (h : strLtB a b = true) : strLtB b a = false :=
  listLtB_asymm a.data b.data h

lemma strLtB_transneg (a b c : String) (h1 : strLtB b a = false)
    (h2 : strLtB c b = false) : strLtB c a = false :=
  listLtB_transneg a.data b.data c.data h1 h2

lemma strLtB_antisymm (a b : String) (h1 : strLtB a b = false)
    (h2 : strLtB b a = false) : a = b := by
  cases a with
  | mk la =>
    cases b with
    | mk lb =>
      have := listLtB_antisymm la lb h1 h2
      rw [this]

lemma pairLtB_asymm (a b : String × String) (h : pairLtB a b = true) :
    pairLtB b a = false := by
  simp only [pairLtB, Bool.or_eq_true, Bool.and_eq_true, beq_iff_eq] at h
  rcases h with h | ⟨heq, h2⟩
  · have h1 : strLtB b.1 a.1 = false := strLtB_asymm _ _ h
    have hne : (b.1 == a.1) = false := by
      refine beq_eq_false_iff_ne.mpr fun he => ?_
      rw [he] at h
      rw [strLtB_irrefl] at h
      cases h
    simp [pairLtB, h1, hne]
  · have h1 : strLtB b.1 a.1 = false := by
      rw [← heq]
      exact strLtB_irrefl _
    have h2' : strLtB b.2 a.2 = false := strLtB_asymm _ _ h2
    simp [pairLtB, h1, h2']

lemma pairLtB_transneg (a b c : String × String) (h1 : pairLtB b a = false)
    (h2 : pairLtB c b = false) : pairLtB c a = false := by
  have h1a : strLtB b.1 a.1 = false := by
    cases hb : strLtB b.1 a.1
    · rfl
    · unfold pairLtB at h1; rw [hb] at h1; simp at h1
  have h2a : strLtB c.1 b.1 = false := by
    cases hb : strLtB c.1 b.1
    · rfl
    · unfold pairLtB at h2; rw [hb] at h2; simp at h2
  have hca : strLtB c.1 a.1 = false := strLtB_transneg _ _ _ h1a h2a
  unfold pairLtB at h1 h2 ⊢
  rw [h1a] at h1
  rw [h2a] at h2
  simp only [Bool.false_or] at h1 h2
  rw [hca]
  simp only [Bool.false_or]
  cases hceq : (c.1 == a.1)
  · simp
  · have hca1 : c.1 = a.1 := beq_iff_eq.mp hceq
    have hab : strLtB a.1 b.1 = false := by
      rw [← hca1]
      exact h2a
    have hba : b.1 = a.1 := strLtB_antisymm b.1 a.1 h1a hab
    have h1b : strLtB b.2 a.2 = false := by
      rw [beq_iff_eq.mpr hba] at h1
      simpa using h1
    have h2b : strLtB c.2 b.2 = false := by
      rw [beq_iff_eq.mpr (hca1.trans hba.symm)] at h2
      simpa using h2
    simp [strLtB_transneg _ _ _ h1b h2b]

lemma flashLt_asymm (a b : FRec) : flashLt a b = true → flashLt b a = false :=
  pairLtB_asymm (flashKey a) (flashKey b)

lemma flashLt_transneg (a b c : FRec) (h1 : flashLt b a = false)
    (h2 : flashLt c b = false) : flashLt c a = false :=
  pairLtB_transneg (flashKey a) (flashKey b) (flashKey c) h1 h2

lemma mainLt_asymm (a b : MRec) : mainLt a b = true → mainLt b a = false :=
  strLtB_asymm (pyLower a.ans) (pyLower b.ans)

lemma mainLt_transneg (a b c : MRec) (h1 : mainLt b a = false)
    (h2 : mainLt c b = false) : mainLt c a = false :=
  strLtB_transneg (pyLower a.ans) (pyLower b.ans) (pyLower c.ans) h1 h2

lemma guiLt_asymm (a b : GRec) : guiLt a b = true → guiLt b a = false :=
  strLtB_asymm (pyLower a.ans) (pyLower b.ans)

lemma guiLt_transneg (a b c : GRec) (h1 : guiLt b a = false)
    (h2 : guiLt c b = false) : guiLt c a = false :=
  strLtB_transneg (pyLower a.ans) (pyLower b.ans) (pyLower c.ans) h1 h2

/-- Counterexample to claim C8: `QuizGame._save` (`main.py`) sorts by the lowercased
answer only (stably), so two records with equal answers keep their input order — the
persisted sequence has question `z` before question `b`, not ordered by the pair
`(answer.lowercase, question.lowercase)` (the second key is strictly below the
first). -/
theorem claim8_counterexample :
    mainSave [⟨"1", "a", "z", "", ""⟩, ⟨"2", "a", "b", "", ""⟩] =
      [headerM, ["1", "a", "z", "", ""], ["2", "a", "b", "", ""]] ∧
    ¬ List.Pairwise
      (fun a b : MRec =>
        pairLtB (pyLower b.ans, pyLower b.ques) (pyLower a.ans, pyLower a.ques) = false)
      (stableSort mainLt [⟨"1", "a", "z", "", ""⟩, ⟨"2", "a", "b", "", ""⟩]) := by
  refine ⟨rfl, fun h => ?_⟩
  have h2 := (List.pairwise_cons.mp h).1 ⟨"2", "a", "b", "", ""⟩ (by decide)
  revert h2
  decide

/-- Claim C8 as amended: every save re-sorts the bank, but only the flashcards variant
sorts by the pair — and by `(answer.lower().strip(), question.lower().strip())`;
`main.py` and the GUI sort by the lowercased answer alone (stably, so equal answers
keep input order).  `R b a = false` states that `a`'s key is not strictly above `b`'s,
i.e. the output is ascending in the respective key. -/
theorem claim8_amended :
    (∀ data : List FRec, List.Perm (stableSort flashLt data) data ∧
       List.Pairwise (fun a b => pairLtB (flashKey b) (flashKey a) = false)
         (stableSort flashLt data) ∧
       flashSave data = headerF :: (stableSort flashLt data).map flashRow) ∧
    (∀ data : List MRec, List.Perm (stableSort mainLt data) data ∧
       List.Pairwise (fun a b => strLtB (pyLower b.ans) (pyLower a.ans) = false)
         (stableSort mainLt data) ∧
       mainSave data = headerM :: (stableSort mainLt data).map mainRow) ∧
    (∀ qs : List GRec, List.Perm (stableSort guiLt qs) qs ∧
       List.Pairwise (fun a b => strLtB (pyLower b.ans) (pyLower a.ans) = false)
         (stableSort guiLt qs) ∧
       guiSaveLines qs = (stableSort guiLt qs).mapIdx
         (fun i r => toString (i + 1) ++ "," ++ r.ans ++ "," ++ r.ques)) :=
  ⟨fun data => ⟨stableSort_perm _ _,
     stableSort_pairwise flashLt flashLt_asymm flashLt_transneg data, rfl⟩,
   fun data => ⟨stableSort_perm _ _,
     stableSort_pairwise mainLt mainLt_asymm mainLt_transneg data, rfl⟩,
   fun qs => ⟨stableSort_perm _ _,
     stableSort_pairwise guiLt guiLt_asymm guiLt_transneg qs, rfl⟩⟩

/-- Counterexample to claim C9: one malformed short row (a single cell under the
standard five-column header) makes `FlashCard._load_flashcard` raise — the `csv`
layer fills the missing fields with `None` and the loader's `.strip()` then fails —
so the whole bank fails to load instead of the row being skipped or defaulted. -/
theorem claim9_counterexample :
    flashLoad (fun _ => "u") [headerF, ["x"]] "b.csv" = .error () := by
  rfl

/-- Claim C9 as amended: loading tolerates rows only down to the header width — every
bank whose (non-blank) data rows are at least as long as the header loads completely;
within such rows, a missing or empty id is replaced by a freshly generated identifier
and every field is stripped; but a data row shorter than the header aborts the whole
load (see the counterexample), and missing optional *columns* (names absent from the
header) default to the empty string. -/
theorem claim9_amended :
    (∀ (fresh : ℕ → String) (header : List String) (src : String)
       (rows : List (List String)),
       (∀ row ∈ rows, row = [] ∨ header.length ≤ row.length) →
       ∀ i, ∃ out, flashLoadRows fresh header src i rows = .ok out) ∧
    (∀ (f a q h d src i0 : String), pyStrip i0 = "" →
       flashLoadRow f headerF [i0, a, q, h, d] src =
         .ok ⟨f, pyStrip a, pyStrip q, pyStrip h, pyStrip d, src⟩) ∧
    (∀ row : List String,
       dGet ["id", "answer", "question"] row "hint" = some "" ∧
       dGet ["id", "answer", "question"] row "desc" = some "") := by
  refine ⟨?_, ?_, ?_⟩
  · intro fresh header src rows hrows
    induction rows with
    | nil => intro i; exact ⟨[], rfl⟩
    | cons row rest ih =>
      intro i
      have hrest := fun r hr => hrows r (List.mem_cons_of_mem _ hr)
      by_cases hblank : row = []
      · obtain ⟨out, hout⟩ := ih hrest i
        refine ⟨out, ?_⟩
        simp only [flashLoadRows, if_pos hblank]
        exact hout
      · have hlen : header.length ≤ row.length := by
          rcases hrows row (List.mem_cons_self _ _) with h | h
          · exact absurd h hblank
          · exact h
        obtain ⟨r, hr⟩ := flashLoadRow_ok (fresh i) header row src hlen
        obtain ⟨out, hout⟩ := ih hrest (i + 1)
        refine ⟨r :: out, ?_⟩
        simp only [flashLoadRows, if_neg hblank, hr, hout]
  · intro f a q h d src i0 hi
    rw [flashLoadRow_headerF, hi]
    simp
  · intro row
    constructor <;> rfl

/-- Witness for C9 (amended): a two-row bank with one blank and one full row loads,
and an empty-id row receives the generated identifier. -/
theorem claim9_witness :
    (∃ out, flashLoadRows (fun _ => "u") headerF "b.csv" 0
        [[], ["i", "a", "q", "", ""]] = .ok out) ∧
    flashLoadRow "u" headerF ["", "a", "q", "", ""] "b.csv" =
      .ok ⟨"u", pyStrip "a", pyStrip "q", pyStrip "", pyStrip "", "b.csv"⟩ := by
  constructor
  · exact claim9_amended.1 (fun _ => "u") headerF "b.csv" [[], ["i", "a", "q", "", ""]]
      (by decide) 0
  · exact claim9_amended.2.1 "u" "a" "q" "" "" "b.csv" "" (by decide)

/-- Claim C10: in every session summary and CSV export of both quiz loops, the
reported statistics satisfy `wrong = total - score`, `0 ≤ score ≤ total`, and
`percent = score/total*100` with `percent = 0.0` when `total = 0` — the guard means a
session aborted before any answer never divides by zero. -/
theorem claim10_stats :
    (∀ (data : List FRec) (optsFor : ℕ → List String) (pool : List FRec)
       (inputs : List String) (e : Export FRow),
       runFlash data optsFor pool inputs = some e →
       e.wrong = (e.total : ℤ) - (e.score : ℤ) ∧ e.score ≤ e.total ∧
       e.percent = (if e.total = 0 then (0 : ℚ) else (e.score : ℚ) / (e.total : ℚ) * 100) ∧
       (e.total = 0 → e.percent = 0)) ∧
    (∀ (data : List MRec) (optsFor : ℕ → List String) (pool : List MRec)
       (inputs : List String) (e : Export MRow),
       runMain data optsFor pool inputs = some e →
       e.wrong = (e.total : ℤ) - (e.score : ℤ) ∧ e.score ≤ e.total ∧
       e.percent = (if e.total = 0 then (0 : ℚ) else (e.score : ℚ) / (e.total : ℚ) * 100) ∧
       (e.total = 0 → e.percent = 0)) := by
  constructor
  · intro data optsFor pool inputs e hrun
    obtain ⟨hsc, htot, hwrong, hpc⟩ :=
      runFlashAux_stats data optsFor pool.length pool 1 [] 0 inputs e rfl hrun
    refine ⟨hwrong, ?_, hpc, fun h0 => by rw [hpc, if_pos h0]⟩
    rw [hsc, htot]
    exact List.countP_le_length _
  · intro data optsFor pool inputs e hrun
    obtain ⟨hsc, htot, hwrong, hpc⟩ :=
      runMainAux_stats data optsFor pool 1 [] 0 inputs e rfl hrun
    refine ⟨hwrong, ?_, hpc, fun h0 => by rw [hpc, if_pos h0]⟩
    rw [hsc, htot]
    exact List.countP_le_length _

/-- Witness for C10: a session aborted before any answer (exit as the first input)
exports `total = 0` with `percent = 0` and no division happens; and the `main.py` loop
on an empty pool exports the same degenerate statistics. -/
theorem claim10_witness :
    (mkExport ([] : List FRow) 0 0).wrong = ((0 : ℤ) - 0) ∧
    (mkExport ([] : List FRow) 0 0).score ≤ (mkExport ([] : List FRow) 0 0).total ∧
    (mkExport ([] : List FRow) 0 0).percent = 0 ∧
    (mkExport ([] : List MRow) 0 0).percent = 0 := by
  have h1 := claim10_stats.1 [⟨"1", "x", "q", "", "", "s"⟩] (fun _ => ["x"])
    [⟨"1", "x", "q", "", "", "s"⟩] ["exit"] (mkExport [] 0 0) rfl
  have h2 := claim10_stats.2 [] (fun _ => ["x"]) [] [] (mkExport [] 0 0) rfl
  refine ⟨h1.1, h1.2.1, ?_, ?_⟩
  · exact h1.2.2.2 rfl
  · exact h2.2.2.2 rfl
